import Mathlib

/-!
Shallow embedding of `scipy/special/generate_ufuncs.py`, the ufunc signature
compiler of `scipy.special`: the type-code tables, the variant expander
(`iter_variants`), the loop synthesizer (`generate_loop`), the signature and
registry parsers, and the fused-type (scalar dispatch) generator (`FusedFunc`),
together with theorems settling the specification claims about them.

Type-code strings of the Python source are modelled as `List Char`; generated
code is modelled as `String`.  Generated bodies that the Python source builds
by repeated `body += chunk` are modelled as the list of those chunks, joined
with `String.join` to obtain the final body text.
-/

namespace GenUfuncs

/-- The `CY_TYPES` table: Cython type name for each one-character type code.
Unknown codes map to `""` (the Python dict raises `KeyError` there; no code
path of the generator that the claims touch looks up an unknown code). -/
def CY_TYPES : Char → String
  | 'f' => "float"
  | 'd' => "double"
  | 'g' => "long double"
  | 'F' => "float complex"
  | 'D' => "double complex"
  | 'G' => "long double complex"
  | 'i' => "int"
  | 'l' => "long"
  | 'v' => "void"
  | _ => ""

/-- Lookup of `CY_TYPES` with a whole code *string* as key, as Python does for
the return-value code (`CY_TYPES[func_retval]`): only one-character strings
are valid keys. -/
def cyTypesKey : List Char → String
  | [c] => CY_TYPES c
  | _ => ""

/-- The `cast_order` key function: the precedence rank of each code is its
index in the string `"ilfdgFDG"`. -/
def cast_order (c : List Char) : List Nat :=
  c.map fun x => ['i', 'l', 'f', 'd', 'g', 'F', 'D', 'G'].indexOf x

/-- The `DANGEROUS_DOWNCAST` table: pairs (source code, destination code) of
narrowing casts that may silently lose information. -/
def DANGEROUS_DOWNCAST : List (Char × Char) :=
  [('F', 'i'), ('F', 'l'), ('F', 'f'), ('F', 'd'), ('F', 'g'),
   ('D', 'i'), ('D', 'l'), ('D', 'f'), ('D', 'd'), ('D', 'g'),
   ('G', 'i'), ('G', 'l'), ('G', 'f'), ('G', 'd'), ('G', 'g'),
   ('f', 'i'), ('f', 'l'),
   ('d', 'i'), ('d', 'l'),
   ('g', 'i'), ('g', 'l'),
   ('l', 'i')]

/-- Membership test in `DANGEROUS_DOWNCAST` (Python: `(a, b) in DANGEROUS_DOWNCAST`). -/
def dangerous (a b : Char) : Bool :=
  DANGEROUS_DOWNCAST.contains (a, b)

/-- `dangerous` where the source code is given as a code *string*, as happens
for the return-value entry of `outtypecodes` in `generate_loop`; a
multi-character string is never a member of the table of character pairs. -/
def dangerousKey (a : List Char) (b : Char) : Bool :=
  match a with
  | [c] => dangerous c b
  | _ => false

/-- The `NAN_VALUE` table: per-code sentinel substituted when a guarded cast
fails (`NPY_NAN` for floating/complex codes, the bit pattern `0xbad0bad0` for
integer codes). -/
def NAN_VALUE : Char → String
  | 'f' => "NPY_NAN"
  | 'd' => "NPY_NAN"
  | 'g' => "NPY_NAN"
  | 'F' => "NPY_NAN"
  | 'D' => "NPY_NAN"
  | 'G' => "NPY_NAN"
  | 'i' => "0xbad0bad0"
  | 'l' => "0xbad0bad0"
  | _ => ""

/-- Lookup of `NAN_VALUE` with a code string as key. -/
def nanValueKey : List Char → String
  | [c] => NAN_VALUE c
  | _ => ""

/-- Python `s.replace(a, b)` for one-character `a`, `b`: replace every
occurrence of the character `a` by `b`. -/
def replaceChar (s : List Char) (a b : Char) : List Char :=
  s.map fun c => if c == a then b else c

/-- Apply the paired replacements of `zip(src, dst)` in sequence, as the
replacement loop of `iter_variants` does. -/
def applyCharMap (src dst : List Char) (s : List Char) : List Char :=
  (src.zip dst).foldl (fun acc p => replaceChar acc p.1 p.2) s

/-- The variant expander `iter_variants`: always offer the `i -> l`
canonicalized signature; when the inputs contain no integer code, also offer
the reduced-precision signature obtained by additionally mapping `d -> f` and
`D -> F` across inputs and outputs. -/
def iter_variants (inputs outputs : List Char) : List (List Char × List Char) :=
  let maps : List (List Char × List Char) := [(['i'], ['l'])]
  let maps :=
    if !(inputs.contains 'i' || inputs.contains 'l') then
      maps ++ maps.map (fun p => (p.1 ++ ['d', 'D'], p.2 ++ ['f', 'F']))
    else maps
  maps.map fun p => (applyCharMap p.1 p.2 inputs, applyCharMap p.1 p.2 outputs)

/-- The equality round-trip guard emitted for a dangerous *input* downcast at
input position `j` of a loop: cast the raw value to the kernel code and
compare it back against the original. -/
def inputCheck (ufCode fCode : Char) (j : Nat) : String :=
  "<" ++ CY_TYPES fCode ++ ">(<" ++ CY_TYPES ufCode ++ "*>ip" ++ toString j ++
    ")[0] == (<" ++ CY_TYPES ufCode ++ "*>ip" ++ toString j ++ ")[0]"

/-- The `input_checks` list of `generate_loop`: one round-trip guard for every
input position whose (loop row code, kernel code) pair is dangerous. -/
def input_checks (func_inputs ufunc_inputs : List Char) : List String :=
  (List.range func_inputs.length).filterMap fun j =>
    if dangerous (ufunc_inputs.getD j 'v') (func_inputs.getD j 'v') then
      some (inputCheck (ufunc_inputs.getD j 'v') (func_inputs.getD j 'v') j)
    else none

/-- The domain-error report emitted on a failed output round-trip check. -/
def sfErrorOutputLine : String :=
  "            sf_error.error(func_name, sf_error.DOMAIN, \"invalid output\")\n"

/-- The per-output assignment code of `generate_loop` for output position `j`:
if the (kernel code, loop row code) pair is dangerous, an equality round-trip
guard with a domain error and sentinel substitution on mismatch; otherwise a
plain cast-and-store.  Each emitted line is one list entry. -/
def outputAssign (j : Nat) (outtype : Char) (fouttype : List Char) : List String :=
  if dangerousKey fouttype outtype then
    ["        if ov" ++ toString j ++ " == <" ++ CY_TYPES outtype ++ ">ov" ++
       toString j ++ ":\n",
     "            (<" ++ CY_TYPES outtype ++ " *>op" ++ toString j ++ ")[0] = <" ++
       CY_TYPES outtype ++ ">ov" ++ toString j ++ "\n",
     "        else:\n",
     sfErrorOutputLine,
     "            (<" ++ CY_TYPES outtype ++ " *>op" ++ toString j ++ ")[0] = <" ++
       CY_TYPES outtype ++ ">" ++ NAN_VALUE outtype ++ "\n"]
  else
    ["        (<" ++ CY_TYPES outtype ++ " *>op" ++ toString j ++ ")[0] = <" ++
       CY_TYPES outtype ++ ">ov" ++ toString j ++ "\n"]

/-- The `outtypecodes` list of `generate_loop`: the kernel-side code of every
loop output slot; when the dispatch row has one more output than the kernel,
the kernel return-value code string occupies slot 0. -/
def loop_outtypecodes (func_outputs func_retval ufunc_outputs : List Char) :
    List (List Char) :=
  (if func_outputs.length + 1 == ufunc_outputs.length then [func_retval] else []) ++
    func_outputs.map (fun c => [c])

/-- The name of the generated loop function. -/
def loopName (func_inputs func_outputs func_retval ufunc_inputs ufunc_outputs :
    List Char) : String :=
  "loop_" ++ String.mk func_retval ++ "_" ++ String.mk func_inputs ++ "_" ++
    String.mk func_outputs ++ "_As_" ++ String.mk ufunc_inputs ++ "_" ++
    String.mk ufunc_outputs

/-- `generate_loop`, emitting the loop body as the list of chunks the Python
source appends with `body += ...`; returns the loop name and the chunk list,
or the `ValueError` message on an arity mismatch. -/
def generate_loop_chunks (func_inputs func_outputs func_retval ufunc_inputs
    ufunc_outputs : List Char) : Except String (String × List String) :=
  if func_inputs.length ≠ ufunc_inputs.length then
    .error "Function and ufunc have different number of inputs"
  else if func_outputs.length ≠ ufunc_outputs.length ∧
      ¬(func_retval ≠ ['v'] ∧ func_outputs.length + 1 = ufunc_outputs.length) then
    .error "Function retval and ufunc outputs don't match"
  else
    let name := loopName func_inputs func_outputs func_retval ufunc_inputs
      ufunc_outputs
    let header : List String :=
      ["cdef void " ++ name ++
         "(char **args, np.npy_intp *dims, np.npy_intp *steps, void *data) nogil:\n",
       "    cdef np.npy_intp i, n = dims[0]\n",
       "    cdef void *func = (<void**>data)[0]\n",
       "    cdef char *func_name = <char*>(<void**>data)[1]\n"]
    let ipDecls := (List.range ufunc_inputs.length).map fun j =>
      "    cdef char *ip" ++ toString j ++ " = args[" ++ toString j ++ "]\n"
    let opDecls := (List.range ufunc_outputs.length).map fun j =>
      "    cdef char *op" ++ toString j ++ " = args[" ++
        toString (j + ufunc_inputs.length) ++ "]\n"
    let fvarsIn := (List.range func_inputs.length).map fun j =>
      "<" ++ CY_TYPES (func_inputs.getD j 'v') ++ ">(<" ++
        CY_TYPES (ufunc_inputs.getD j 'v') ++ "*>ip" ++ toString j ++ ")[0]"
    let shift := func_outputs.length + 1 == ufunc_outputs.length
    let func_joff := if shift then 1 else 0
    let retDecl : List String :=
      if shift then ["    cdef " ++ cyTypesKey func_retval ++ " ov0\n"] else []
    let ovDecls := func_outputs.enum.map fun p =>
      "    cdef " ++ CY_TYPES p.2 ++ " ov" ++ toString (p.1 + func_joff) ++ "\n"
    let ftypes := func_inputs.map CY_TYPES ++
      func_outputs.map (fun c => CY_TYPES c ++ " *")
    let fvars := fvarsIn ++
      func_outputs.enum.map (fun p => "&ov" ++ toString (p.1 + func_joff))
    let outtypecodes := loop_outtypecodes func_outputs func_retval ufunc_outputs
    let rv := if shift then "ov0 = " else ""
    let funcall := "        " ++ rv ++ "(<" ++ cyTypesKey func_retval ++ "(*)(" ++
      String.intercalate ", " ftypes ++ ") nogil>func)(" ++
      String.intercalate ", " fvars ++ ")\n"
    let checks := input_checks func_inputs ufunc_inputs
    let callSection : List String :=
      if checks.isEmpty then [funcall]
      else
        ["        if " ++ String.intercalate " and " checks ++ ":\n",
         "    " ++ funcall,
         "        else:\n",
         "            sf_error.error(func_name, sf_error.DOMAIN, \"invalid input argument\")\n"] ++
        outtypecodes.enum.map (fun p =>
          "            ov" ++ toString p.1 ++ " = <" ++ cyTypesKey p.2 ++ ">" ++
            nanValueKey p.2 ++ "\n")
    let outSection :=
      ((ufunc_outputs.zip outtypecodes).enum.map fun p =>
        outputAssign p.1 p.2.1 p.2.2).flatten
    let ipAdvance := (List.range ufunc_inputs.length).map fun j =>
      "        ip" ++ toString j ++ " += steps[" ++ toString j ++ "]\n"
    let opAdvance := (List.range ufunc_outputs.length).map fun j =>
      "        op" ++ toString j ++ " += steps[" ++
        toString (j + ufunc_inputs.length) ++ "]\n"
    let preChunks := header ++ ipDecls ++ opDecls ++ retDecl ++ ovDecls ++
      ["    for i in range(n):\n"] ++ callSection
    let postChunks := ipAdvance ++ opAdvance ++
      ["    sf_error.check_fpe(func_name)\n"]
    .ok (name, preChunks ++ outSection ++ postChunks)

/-- `generate_loop`: the loop name and the joined body text. -/
def generate_loop (func_inputs func_outputs func_retval ufunc_inputs
    ufunc_outputs : List Char) : Except String (String × String) :=
  (generate_loop_chunks func_inputs func_outputs func_retval ufunc_inputs
    ufunc_outputs).map fun p => (p.1, String.join p.2)

/-- One parsed kernel signature of a group: the tuple
`(func_name, inarg, outarg, ret, header)` produced by `_parse_signature`. -/
structure Sig where
  funcName : String
  inarg : List Char
  outarg : List Char
  ret : List Char
  header : String
deriving DecidableEq

/-- Python `re.sub(r'\*.*', '', ret)`: drop everything from the first `*` on. -/
def stripStar (r : List Char) : List Char :=
  r.takeWhile (· ≠ '*')

/-- Python `ret.replace('*', '')`: drop every `*`. -/
def dropStar (r : List Char) : List Char :=
  r.filter (· ≠ '*')

/-- One expanded dispatch-table row of `Ufunc._get_signatures_and_loops`:
`(func_name, loop_name, inputs, outputs)`. -/
structure Variant where
  funcName : String
  loopName : String
  inp : List Char
  outp : List Char
deriving DecidableEq

/-- One candidate row offered to `add_variant`: the kernel data together with
the (already expanded) ufunc input/output code strings. -/
structure Cand where
  funcName : String
  inarg : List Char
  outarg : List Char
  ret : List Char
  inp : List Char
  outp : List Char
deriving DecidableEq

/-- The candidate a signature contributes in the base-variant pass: the first
element yielded by `iter_variants`, with the return code folded into the
outputs and `*` markers stripped. -/
def baseCand (s : Sig) : Cand :=
  let outp0 := stripStar s.ret ++ s.outarg
  let v := (iter_variants s.inarg outp0).headD ([], [])
  ⟨s.funcName, s.inarg, s.outarg, dropStar s.ret, v.1, v.2⟩

/-- The candidates a signature contributes in the supplementary pass: every
element yielded by `iter_variants`. -/
def supCands (s : Sig) : List Cand :=
  let outp0 := stripStar s.ret ++ s.outarg
  (iter_variants s.inarg outp0).map fun v =>
    ⟨s.funcName, s.inarg, s.outarg, dropStar s.ret, v.1, v.2⟩

/-- All candidates of a group in the order `_get_signatures_and_loops`
processes them: first every signature's base variant, then every signature's
supplementary variants. -/
def allCands (sigs : List Sig) : List Cand :=
  sigs.map baseCand ++ (sigs.map supCands).flatten

/-- The variant built from a candidate (the row `add_variant` appends),
together with the generated loop. -/
def candVariant (c : Cand) : Except String Variant :=
  (generate_loop_chunks c.inarg c.outarg c.ret c.inp c.outp).map fun p =>
    ⟨c.funcName, p.1, c.inp, c.outp⟩

/-- The mutable state of `_get_signatures_and_loops`: the `seen` set of input
tuples, the variant list, and the shared `all_loops` cache. -/
structure VarState where
  seen : List (List Char)
  variants : List Variant
  allLoops : List (String × String)

/-- First-occurrence-wins insertion into the `all_loops` name-to-body map
(a Python dict assignment; re-assignments store the same body since the body
is a function of the name components). -/
def insertLoop (m : List (String × String)) (k v : String) :
    List (String × String) :=
  if m.any (fun p => p.1 == k) then m.map (fun p => if p.1 == k then (k, v) else p)
  else m ++ [(k, v)]

/-- `add_variant`: skip a candidate whose input tuple was already seen;
otherwise record the tuple, validate the row (no void output slot, group
arity respected), generate its loop and append the variant. -/
def add_variant (uname : String) (inargNum outargNum : Nat) (st : VarState)
    (c : Cand) : Except String VarState :=
  if st.seen.contains c.inp then .ok st
  else
    let seen := st.seen ++ [c.inp]
    if c.outp.contains 'v' then
      .error (uname ++ ": void signature")
    else if c.inp.length ≠ inargNum ∨ c.outp.length ≠ outargNum then
      .error (uname ++ ": signature does not have the group input/output arity")
    else
      match generate_loop_chunks c.inarg c.outarg c.ret c.inp c.outp with
      | .error e => .error e
      | .ok (nm, chunks) =>
        .ok ⟨seen, st.variants ++ [⟨c.funcName, nm, c.inp, c.outp⟩],
             insertLoop st.allLoops nm (String.join chunks)⟩

/-- The two candidate passes of `_get_signatures_and_loops`, before the final
sort: fold `add_variant` over `allCands`, with the group arity taken from the
first signature. -/
def raw_variants (uname : String) (sigs : List Sig)
    (allLoops : List (String × String)) :
    Except String (VarState × Nat × Nat) :=
  match sigs with
  | [] => .ok (⟨[], [], allLoops⟩, 0, 0)
  | s0 :: _ =>
    let inargNum := s0.inarg.length
    let outargNum := (stripStar s0.ret ++ s0.outarg).length
    ((allCands sigs).foldlM (fun st c => add_variant uname inargNum outargNum st c)
      (⟨[], [], allLoops⟩ : VarState)).map fun st => (st, inargNum, outargNum)

/-- Python list comparison on the `cast_order` rank tuples (the sort keys):
lexicographic order on lists of naturals. -/
def listNatLe : List Nat → List Nat → Bool
  | [], _ => true
  | _ :: _, [] => false
  | a :: as, b :: bs => if a < b then true else if b < a then false else listNatLe as bs

/-- The comparison used to sort the variant table: ascending in the rank tuple
of the input codes. -/
def variantLe (a b : Variant) : Bool :=
  listNatLe (cast_order a.inp) (cast_order b.inp)

/-- `Ufunc._get_signatures_and_loops`: expand and deduplicate the candidates,
then stable-sort the variants by input-code cast order. -/
def get_signatures_and_loops (uname : String) (sigs : List Sig)
    (allLoops : List (String × String)) :
    Except String (List Variant × Nat × Nat × List (String × String)) :=
  (raw_variants uname sigs allLoops).map fun r =>
    (r.1.variants.mergeSort variantLe, r.2.1, r.2.2, r.1.allLoops)

/-- Split a character list at every occurrence of `sep`, keeping empty
segments, like Python `str.split(sep)` for a one-character separator. -/
def splitOnChar (sep : Char) : List Char → List (List Char)
  | [] => [[]]
  | c :: rest =>
    let r := splitOnChar sep rest
    if c == sep then [] :: r
    else
      match r with
      | [] => [[c]]
      | x :: xs => (c :: x) :: xs

/-- Characters matched by the signature grammar's code class `[fdgFDGil]`. -/
def isCodeChar (c : Char) : Bool :=
  c ∈ ['f', 'd', 'g', 'F', 'D', 'G', 'i', 'l']

/-- Characters matched by the regex class `\s`. -/
def isPySpace (c : Char) : Bool :=
  c.isWhitespace

/-- Python `str.strip()`. -/
def stripChars (s : List Char) : List Char :=
  ((s.dropWhile isPySpace).reverse.dropWhile isPySpace).reverse

/-- Python `str.strip()` on a `String`. -/
def trimStr (s : String) : String :=
  String.mk (stripChars s.data)

/-- Matcher for the part of the first `_parse_signature` regex after the
colon: `\s*([fdgFDGil]*)\s*\*\s*([fdgFDGil]*)\s*->\s*([*fdgFDGil]*)\s*$`. -/
def matchTail1 (s : List Char) : Option (List Char × List Char × List Char) :=
  let s1 := s.dropWhile isPySpace
  let inarg := s1.takeWhile isCodeChar
  let s2 := (s1.drop inarg.length).dropWhile isPySpace
  match s2 with
  | '*' :: s3 =>
    let s4 := s3.dropWhile isPySpace
    let outarg := s4.takeWhile isCodeChar
    let s5 := (s4.drop outarg.length).dropWhile isPySpace
    match s5 with
    | '-' :: '>' :: s6 =>
      let s7 := s6.dropWhile isPySpace
      let ret := s7.takeWhile fun c => c == '*' || isCodeChar c
      let s8 := (s7.drop ret.length).dropWhile isPySpace
      if s8.isEmpty then some (inarg, outarg, ret) else none
    | _ => none
  | _ => none

/-- Matcher for the part of the second `_parse_signature` regex after the
colon: `\s*([fdgFDGil]*)\s*->\s*([fdgFDGil]?)\s*$`. -/
def matchTail2 (s : List Char) : Option (List Char × List Char) :=
  let s1 := s.dropWhile isPySpace
  let inarg := s1.takeWhile isCodeChar
  let s2 := (s1.drop inarg.length).dropWhile isPySpace
  match s2 with
  | '-' :: '>' :: s3 =>
    let s4 := s3.dropWhile isPySpace
    let ret : List Char :=
      match s4 with
      | c :: _ => if isCodeChar c then [c] else []
      | [] => []
    let s5 := (s4.drop ret.length).dropWhile isPySpace
    if s5.isEmpty then some (inarg, ret) else none
  | _ => none

/-- All ways to split a string at a colon, rightmost first: the greedy `(.*)`
group before the `:` of the signature regexes takes the longest prefix whose
remainder still matches. -/
def colonSplits (s : List Char) : List (List Char × List Char) :=
  (List.range s.length).reverse.filterMap fun i =>
    if s.getD i ' ' == ':' then some (s.take i, s.drop (i + 1)) else none

/-- `Func._parse_signature`: parse one `kernel: inputs [* outputs] -> ret`
clause, or fail with the `ValueError` naming the group. -/
def parse_signature (uname : String) (sig : List Char) :
    Except String (String × List Char × List Char × List Char) :=
  match (colonSplits sig).findSome?
      (fun p => (matchTail1 p.2).map fun t => (p.1, t)) with
  | some (fn, inarg, outarg, ret) =>
    if 1 < (ret.filter (· == '*')).length then
      .error (uname ++ ": Invalid signature")
    else .ok (String.mk (stripChars fn), inarg, outarg, ret)
  | none =>
    match (colonSplits sig).findSome?
        (fun p => (matchTail2 p.2).map fun t => (p.1, t)) with
    | some (fn, inarg, ret) => .ok (String.mk (stripChars fn), inarg, [], ret)
    | none => .error (uname ++ ": Invalid signature")

/-- `Func._parse_signatures`: split the signature and header lists on commas,
broadcast a single header, check the counts agree, and parse each clause. -/
def parse_signatures (uname : String) (sigsStr headersStr : String) :
    Except String (List Sig) :=
  let sigs := (((splitOnChar ',' sigsStr.data).map fun x =>
    String.mk (stripChars x)).filter (· ≠ ""))
  let headers := (((splitOnChar ',' headersStr.data).map fun x =>
    String.mk (stripChars x)).filter (· ≠ ""))
  let headers :=
    if headers.length == 1 then List.replicate sigs.length (headers.headD "")
    else headers
  if headers.length ≠ sigs.length then
    .error (uname ++ ": Number of headers and signatures doesn't match")
  else
    (sigs.zip headers).mapM fun p => do
      let (fn, inarg, outarg, ret) ← parse_signature uname p.1.data
      pure (⟨fn, inarg, outarg, ret, p.2⟩ : Sig)

/-- Characters matched by the registry line regex's name class `[a-z0-9_]`. -/
def isNameChar (c : Char) : Bool :=
  (('a' ≤ c) && (c ≤ 'z')) || c.isDigit || c == '_'

/-- First index at which the separator `--` occurs. -/
def firstDashDash (s : List Char) : Option Nat :=
  (List.range s.length).find? fun i =>
    s.getD i ' ' == '-' && s.getD (i + 1) ' ' == '-'

/-- The registry line regex `^([a-z0-9_]+)\s*--\s*(.*?)\s*--(.*)$` of
`Func.parse_all`: group name, signature list text, header list text. -/
def parseLine (line : List Char) : Option (String × String × String) :=
  let name := line.takeWhile isNameChar
  if name.isEmpty then none
  else
    match (line.drop name.length).dropWhile isPySpace with
    | '-' :: '-' :: r2 =>
      let r3 := r2.dropWhile isPySpace
      match firstDashDash r3 with
      | some j =>
        let g2 := ((r3.take j).reverse.dropWhile isPySpace).reverse
        some (String.mk name, String.mk g2, String.mk (r3.drop (j + 2)))
      | none => none
    | _ => none

/-- One parsed registry group as `Ufunc.__init__` builds it.  The docstring is
fetched from the external documentation provider; `textwrap.dedent(...)` on it
is abstracted to `String.trim`, as no claim inspects the text. -/
structure UfuncRec where
  name : String
  signatures : List Sig
  doc : String
deriving DecidableEq

/-- `Ufunc.__init__` with the documentation provider passed explicitly: parse
the signatures, then fail if the provider signals absence for the group. -/
def ufuncInit (docs : String → Option String) (name sigsStr headersStr : String) :
    Except String UfuncRec := do
  let sigs ← parse_signatures name sigsStr headersStr
  match docs ("scipy.special." ++ name) with
  | none => .error ("No docstring for ufunc " ++ name)
  | some d => pure ⟨name, sigs, trimStr d⟩

/-- Python `str.splitlines()` for newline-separated text. -/
def splitLines (t : String) : List String :=
  (splitOnChar (Char.ofNat 10) t.data).map String.mk

/-- Python string comparison (lexicographic on code points), as used by
`lines.sort()` and `ufuncs.sort(key=...)`. -/
def strLe (a b : String) : Bool :=
  decide (a ≤ b)

/-- `Func.parse_all` specialized to `Ufunc`: sort the registry lines, skip
blank ones, parse each and construct the group, aborting on the first
error. -/
def parse_all (docs : String → Option String) (text : String) :
    Except String (List UfuncRec) :=
  ((splitLines text).mergeSort strLe).foldlM
    (fun acc rawLine =>
      let line := trimStr rawLine
      if line == "" then .ok acc
      else
        match parseLine line.data with
        | none => .error ("Unparseable line " ++ line)
        | some (name, sigsStr, headersStr) =>
          (ufuncInit docs name sigsStr headersStr).map fun u => acc ++ [u])
    []

/-- The group order used for emission: `generate_ufuncs` sorts the parsed
groups by name (`ufuncs.sort(key=lambda u: u.name)`) before generating any
artifact. -/
def sortedUfuncs (docs : String → Option String) (text : String) :
    Except String (List UfuncRec) :=
  (parse_all docs text).map fun us => us.mergeSort fun a b => strLe a.name b.name

/-- The `unique` helper: first-occurrence deduplication preserving order. -/
def unique {α : Type} [BEq α] (lst : List α) : List α :=
  lst.foldl (fun acc x => if acc.contains x then acc else acc ++ [x]) []

/-- `generate_fused_type`: the name and `ctypedef fused` declaration for a
multi-code column. -/
def generate_fused_type (codes : List Char) : String × String :=
  let name := String.mk codes ++ "_number_t"
  (name, String.intercalate "\n"
    (("ctypedef fused " ++ name ++ ":") :: codes.map fun c => "    " ++ CY_TYPES c))

/-- Character comparison for Python's sort of one-character code strings. -/
def charLe (a b : Char) : Bool :=
  decide (a ≤ b)

/-- `FusedFunc._get_codes`: per input and output position, the sorted,
deduplicated column of codes over the canonicalized first variants of all
signatures. -/
def fused_get_codes (sigs : List Sig) : List (List Char) × List (List Char) :=
  match sigs with
  | [] => ([], [])
  | s0 :: _ =>
    let inargNum := s0.inarg.length
    let outargNum := (stripStar s0.ret ++ s0.outarg).length
    let firsts := sigs.map fun s =>
      (iter_variants s.inarg (stripStar s.ret ++ s.outarg)).headD ([], [])
    ((List.range inargNum).map fun n =>
       (unique (firsts.map fun x => x.1.getD n ' ')).mergeSort charLe,
     (List.range outargNum).map fun n =>
       (unique (firsts.map fun x => x.2.getD n ' ')).mergeSort charLe)

/-- One iteration of the `_get_types` loop: the plain Cython type for a
one-code column, the fused type (with its declaration, deduplicated) for a
multi-code column. -/
def getTypesStep (acc : List (String × List Char) × List String)
    (code : List Char) : List (String × List Char) × List String :=
  if code.length == 1 then
    (acc.1 ++ [(CY_TYPES (code.headD ' '), code)], acc.2)
  else
    (acc.1 ++ [((generate_fused_type code).1, code)],
     if acc.2.contains (generate_fused_type code).2 then acc.2
     else acc.2 ++ [(generate_fused_type code).2])

/-- `FusedFunc._get_types`: the Cython (or fused) type name for each code
column, collecting the fused-type declarations. -/
def fused_get_types (codes : List (List Char)) :
    List (String × List Char) × List String :=
  codes.foldl getTypesStep ([], [])

/-- The data `FusedFunc.__init__` computes for a group. -/
structure FusedRec where
  name : String
  signatures : List Sig
  doc : String
  incodes : List (List Char)
  outcodes : List (List Char)
  intypes : List (String × List Char)
  outtypes : List (String × List Char)
  fused_types : List String
  invars : List String
  outvars : List String

/-- `FusedFunc.__init__` (the docstring is the fixed reference text). -/
def mkFusedFunc (name : String) (sigs : List Sig) : FusedRec :=
  let (incodes, outcodes) := fused_get_codes sigs
  let (intypes, inft) := fused_get_types incodes
  let (outtypes, outft) := fused_get_types outcodes
  ⟨name, sigs, "See the documentation for scipy.special." ++ name,
   incodes, outcodes, intypes, outtypes,
   outft.foldl (fun acc d => if acc.contains d then acc else acc ++ [d]) inft,
   (List.range intypes.length).map (fun n => "x" ++ toString n),
   (List.range outtypes.length).map (fun n => "y" ++ toString n)⟩

/-- The `underscore` helper: spaces to underscores. -/
def underscore (s : String) : String :=
  String.mk (s.data.map fun c => if c == ' ' then '_' else c)

/-- `FusedFunc._get_conditional`: the `if`/`elif`/`else` line selecting a
specialization of the fused types, or `none` when no type is fused. -/
def get_conditional (types : List (String × List Char)) (codes : List Char)
    (adverb : String) : Option String :=
  let clauses := ((types.zip codes).foldl
    (fun (acc : List String × List String) p =>
      if p.1.2.length == 1 then acc
      else if acc.2.contains p.1.1 then acc
      else (acc.1 ++ [p.1.1 ++ " is " ++ underscore (CY_TYPES p.2)],
            acc.2 ++ [p.1.1]))
    ([], [])).1
  if !clauses.isEmpty && adverb != "else" then
    some (adverb ++ " " ++ String.intercalate " and " clauses ++ ":")
  else if !clauses.isEmpty && adverb == "else" then some "else:"
  else none

/-- `FusedFunc._get_incallvars`. -/
def get_incallvars (f : FusedRec) (intypes : List String) (c : Bool) :
    List String :=
  intypes.enum.map fun p =>
    let var := f.invars.getD p.1 ""
    if c && p.2 == "double complex" then
      "_complexstuff.npy_cdouble_from_double_complex(" ++ var ++ ")"
    else var

/-- One iteration of the `_get_outcallvars` loop: the `(outcallvars, tmpvars,
casts)` contribution of output position `p`. -/
def outcallvarsEntry (c : Bool) (p : Nat × (String × String)) :
    List String × List String × List String :=
  if c && p.2.2 == "double complex" then
    (["&" ++ ("tmp" ++ toString p.1)], ["tmp" ++ toString p.1],
     [p.2.1 ++ "[0] = " ++
       "_complexstuff.double_complex_from_npy_cdouble(" ++
       ("tmp" ++ toString p.1) ++ ")"])
  else ([p.2.1], [], [])

/-- `FusedFunc._get_outcallvars`: `(outcallvars, tmpvars, casts)`. -/
def get_outcallvars (f : FusedRec) (outtypes : List String) (c : Bool) :
    List String × List String × List String :=
  let start := f.outvars.length - outtypes.length
  ((f.outvars.drop start).zip outtypes).enum.foldl
    (fun (acc : List String × List String × List String) p =>
      (acc.1 ++ (outcallvarsEntry c p).1, acc.2.1 ++ (outcallvarsEntry c p).2.1,
       acc.2.2 ++ (outcallvarsEntry c p).2.2))
    ([], [], [])

/-- Cartesian product of code columns in `itertools.product` order. -/
def listProduct {α : Type} : List (List α) → List (List α)
  | [] => [[]]
  | xs :: rest => (xs.map fun x => (listProduct rest).map fun r => x :: r).flatten

/-- One iteration of the first `_get_nan_decs` loop: collect the fused output
types (deduplicated by name) and emit the sentinel assignment for each
non-fused output. -/
def nanDecsStep (acc : List (String × List Char) × List String × List String)
    (p : String × ((String × List Char) × List Char)) :
    List (String × List Char) × List String × List String :=
  if p.2.2.length == 1 then
    (acc.1,
     acc.2.1 ++ ["        " ++ p.1 ++ "[0] = " ++ NAN_VALUE (p.2.2.headD ' ')],
     acc.2.2)
  else if acc.2.2.contains p.2.1.1 then acc
  else (acc.1 ++ [p.2.1], acc.2.1, acc.2.2 ++ [p.2.1.1])

/-- `FusedFunc._get_nan_decs`: the trailing `else:` fallback that sets every
output to its sentinel, covering the product of all fused output axes. -/
def get_nan_decs (f : FusedRec) : List String :=
  let init := (f.outvars.zip (f.outtypes.zip f.outcodes)).foldl nanDecsStep
    ([], ["    else:"], [])
  let fused_types := init.1
  let lines := init.2.1
  if fused_types.isEmpty then lines
  else
    let all_codes := fused_types.map fun ft => ft.2
    let lastIdx := (all_codes.map List.length).foldl (· * ·) 1 - 1
    lines ++ ((listProduct all_codes).enum.map fun q =>
      let decs := fused_types.enum.foldl
        (fun (acc2 : List String) p =>
          let code := q.2.getD p.1 ' '
          acc2 ++ f.outvars.enum.filterMap fun r =>
            if f.outtypes.getD r.1 ("", []) == p.2 then
              some (r.2 ++ "[0] = " ++ NAN_VALUE code)
            else none)
        []
      let adverb := if q.1 == 0 then "if" else if q.1 == lastIdx then "else"
        else "elif"
      let cond := (get_conditional fused_types q.2 adverb).getD ""
      ("        " ++ cond) :: decs.map fun d => "            " ++ d).flatten

/-- `FusedFunc._get_tmp_decs`: sorted declarations of the temporaries. -/
def get_tmp_decs (all_tmpvars : List String) : List String :=
  (all_tmpvars.mergeSort strLe).map fun t => "    cdef npy_cdouble " ++ t

/-- `FusedFunc._get_python_wrap`. -/
def get_python_wrap (f : FusedRec) : String :=
  let tab := "    "
  String.intercalate "\n"
    (["def _" ++ f.name ++ "_pywrap(" ++ String.intercalate ", "
        ((f.intypes.zip f.invars).map fun p => p.1.1 ++ " " ++ p.2) ++ "):"]
     ++ (f.outtypes.zip f.outvars).map (fun p => tab ++ "cdef " ++ p.1.1 ++ " " ++ p.2)
     ++ [tab ++ f.name ++ "(" ++ String.intercalate ", " f.invars ++ ", " ++
          String.intercalate ", " (f.outvars.map fun x => "&" ++ x) ++ ")"]
     ++ [tab ++ "return " ++ String.intercalate ", " f.outvars])

/-- `Func.cython_func_name` as used on the fused path (no overrides): prefix
with `_func_`, keeping the `[...]` specialization suffix (spaces replaced by
underscores) only when `specialized` is set. -/
def cython_func_name (c_name : String) (specialized : Bool) : String :=
  let dat := c_name.data
  if dat.contains '[' && dat.getLast? == some ']' then
    let base := dat.takeWhile (· ≠ '[')
    let fused := dat.drop base.length
    if specialized then
      "_func_" ++ String.mk base ++
        String.mk (fused.map fun c => if c == ' ' then '_' else c)
    else "_func_" ++ String.mk base
  else "_func_" ++ c_name

/-- The values `FusedFunc._get_common` returns for one specialization. -/
structure CommonParts where
  funcName : String
  incodes : List Char
  outcodes : List Char
  retcode : List Char
  intypes : List String
  outtypes : List String
  rettype : String
  c : Bool
  lines : List String
  sp : String

/-- Python `str.endswith` on the character level. -/
def strEndsWith (s p : String) : Bool :=
  p.data.isSuffixOf s.data

/-- The callable name `_get_common` resolves for one specialization: the cast
through the C++ export pointer for `++` headers, the `_func_` prefixed name
otherwise. -/
def commonFuncName (sig : Sig) : String :=
  let incodes := replaceChar sig.inarg 'i' 'l'
  let outcodes := replaceChar sig.outarg 'i' 'l'
  let retcode1 := stripStar (replaceChar sig.ret 'i' 'l')
  let retcode := if retcode1.isEmpty then ['v'] else retcode1
  if strEndsWith sig.header "++" then
    "(<" ++ cyTypesKey retcode ++ "(*)(" ++
      String.intercalate ", " (incodes.map CY_TYPES ++ outcodes.map CY_TYPES) ++
      ") nogil>" ++ "scipy.special._ufuncs_cxx._export_" ++ sig.funcName ++ ")"
  else cython_func_name sig.funcName true

/-- `FusedFunc._get_common`: canonicalize `i` to `l` in all code positions,
resolve the callable name (through the C++ export pointer for `++` headers),
and build the branch conditional. -/
def get_common (f : FusedRec) (signum : Nat) (sig : Sig) : CommonParts :=
  let tab := "    "
  let incodes := replaceChar sig.inarg 'i' 'l'
  let outcodes := replaceChar sig.outarg 'i' 'l'
  let retcode0 := replaceChar sig.ret 'i' 'l'
  let c := strEndsWith sig.header "h"
  let intypes := incodes.map CY_TYPES
  let outtypes := outcodes.map CY_TYPES
  let retcode1 := stripStar retcode0
  let retcode := if retcode1.isEmpty then ['v'] else retcode1
  let rettype := cyTypesKey retcode
  let funcName := commonFuncName sig
  let adverb := if signum == 0 then "if" else "elif"
  let cond := get_conditional f.intypes incodes adverb
  let lines : List String :=
    match cond with
    | some line => [tab ++ line]
    | none => []
  let sp :=
    match cond with
    | some _ => tab ++ tab
    | none => tab
  ⟨funcName, incodes, outcodes, retcode, intypes, outtypes, rettype, c,
   lines, sp⟩

/-- The spec tag `incodes->retcode` one signature contributes in
`_generate_from_return_and_no_outargs`. -/
def genA_spec (f : FusedRec) (p : Nat × Sig) : String :=
  let cp := get_common f p.1 p.2
  String.mk cp.incodes ++ "->" ++ String.mk cp.retcode

/-- The body lines one signature contributes in
`_generate_from_return_and_no_outargs`: the conditional (if any) and the
specialized return call. -/
def genA_body (f : FusedRec) (p : Nat × Sig) : List String :=
  let cp := get_common f p.1 p.2
  let callvars := get_incallvars f cp.intypes cp.c
  let call0 := cp.funcName ++ "(" ++ String.intercalate ", " callvars ++ ")"
  let call := if cp.c && cp.rettype == "double complex" then
      "_complexstuff.double_complex_from_npy_cdouble(" ++ call0 ++ ")"
    else call0
  cp.lines ++ [cp.sp ++ "return " ++ call]

/-- The specialization branches of `_generate_from_return_and_no_outargs`:
`(specs, body lines)`. -/
def genA_branches (f : FusedRec) : List String × List String :=
  f.signatures.enum.foldl
    (fun (acc : List String × List String) p =>
      (acc.1 ++ [genA_spec f p], acc.2 ++ genA_body f p))
    ([], [])

/-- The return-NaN fallback ladder of `_generate_from_return_and_no_outargs`. -/
def genA_fallback (f : FusedRec) : List String :=
  let outcodes := (f.outtypes.getD 0 ("", [])).2
  let lastIdx := outcodes.length - 1
  "    else:" ::
    (if outcodes.length == 1 then
      ["        " ++ ("return " ++ nanValueKey outcodes)]
     else
      (outcodes.enum.map fun q =>
        let adverb := if q.1 == 0 then "if" else if q.1 == lastIdx then "else"
          else "elif"
        let cond := (get_conditional f.outtypes [q.2] adverb).getD ""
        ["        " ++ cond,
         "            " ++ ("return " ++ NAN_VALUE q.2)]).flatten)

/-- The `cpdef` declaration line of `_generate_from_return_and_no_outargs`. -/
def decA (f : FusedRec) : String :=
  "cpdef " ++ (f.outtypes.getD 0 ("", [])).1 ++ " " ++ f.name ++ "(" ++
    String.intercalate ", "
      ((f.intypes.zip f.invars).map fun p => p.1.1 ++ " " ++ p.2) ++ ") nogil"

/-- The function head of `_generate_from_return_and_no_outargs`. -/
def headA (f : FusedRec) : List String :=
  [decA f ++ ":", "    \"\"\"" ++ f.doc ++ "\"\"\""]

/-- `FusedFunc._generate_from_return_and_no_outargs`: `(dec, src, specs)`. -/
def generate_from_return_and_no_outargs (f : FusedRec) :
    String × String × List String :=
  let specs := (genA_branches f).1
  let body := if 1 < specs.length then (genA_branches f).2 ++ genA_fallback f
    else (genA_branches f).2
  (decA f, String.intercalate "\n" (headA f ++ body), specs)

/-- The spec tag one signature contributes in
`_generate_from_outargs_and_no_return`. -/
def genB_spec (f : FusedRec) (p : Nat × Sig) : String :=
  let cp := get_common f p.1 p.2
  if cp.outcodes.length == 1 then
    String.mk cp.incodes ++ "->" ++ String.mk cp.outcodes
  else String.mk cp.incodes ++ "*" ++ String.mk cp.outcodes ++ "->v"

/-- The body lines one signature contributes in
`_generate_from_outargs_and_no_return`: conditional, call and output casts. -/
def genB_body (f : FusedRec) (p : Nat × Sig) : List String :=
  let cp := get_common f p.1 p.2
  let inCall := get_incallvars f cp.intypes cp.c
  let oc := get_outcallvars f cp.outtypes cp.c
  let call := cp.funcName ++ "(" ++ String.intercalate ", " (inCall ++ oc.1) ++ ")"
  cp.lines ++ [cp.sp ++ call] ++ oc.2.2.map (fun x => cp.sp ++ x)

/-- The temporary variables one signature needs in the outargs generators. -/
def genTmps (f : FusedRec) (p : Nat × Sig) : List String :=
  let cp := get_common f p.1 p.2
  (get_outcallvars f cp.outtypes cp.c).2.1

/-- Python's `set.update`: insert the new temporaries, keeping one copy each. -/
def tmpsInsert (s : List String) (ts : List String) : List String :=
  ts.foldl (fun s t => if s.contains t then s else s ++ [t]) s

/-- The specialization branches of `_generate_from_outargs_and_no_return`:
`(specs, body lines, accumulated tmpvars)`. -/
def genB_branches (f : FusedRec) : List String × List String × List String :=
  f.signatures.enum.foldl
    (fun (acc : List String × List String × List String) p =>
      (acc.1 ++ [genB_spec f p], acc.2.1 ++ genB_body f p,
       tmpsInsert acc.2.2 (genTmps f p)))
    ([], [], [])

/-- The declaration line of `_generate_from_outargs_and_no_return`. -/
def decB (f : FusedRec) : String :=
  let callvars0 := (f.intypes.zip f.invars).map fun p => p.1.1 ++ " " ++ p.2
  let callvars := if 1 < f.outvars.length then
      callvars0 ++ (f.outtypes.zip f.outvars).map (fun p => p.1.1 ++ " *" ++ p.2)
    else callvars0
  if f.outvars.length == 1 then
    "cpdef " ++ (f.outtypes.getD 0 ("", [])).1 ++ " " ++ f.name ++ "(" ++
      String.intercalate ", " callvars ++ ") nogil"
  else "cdef void " ++ f.name ++ "(" ++ String.intercalate ", " callvars ++
    ") nogil"

/-- The function head of `_generate_from_outargs_and_no_return`: declaration,
docstring, the single-output local and the temporary declarations. -/
def headB (f : FusedRec) : List String :=
  ([decB f ++ ":", "    \"\"\"" ++ f.doc ++ "\"\"\""] ++
    (if f.outvars.length == 1 then
      ["    cdef " ++ (f.outtypes.getD 0 ("", [])).1 ++ " " ++ f.outvars.headD ""]
     else [])) ++ get_tmp_decs (genB_branches f).2.2

/-- The trailing return line of `_generate_from_outargs_and_no_return`. -/
def tailB (f : FusedRec) : List String :=
  if f.outvars.length == 1 then
    ["    return " ++ (f.outvars.headD "" ++ "[0]")]
  else []

/-- `FusedFunc._generate_from_outargs_and_no_return`: `(dec, src, specs)`. -/
def generate_from_outargs_and_no_return (f : FusedRec) :
    String × String × List String :=
  let specs := (genB_branches f).1
  let body := if 1 < specs.length then (genB_branches f).2.1 ++ get_nan_decs f
    else (genB_branches f).2.1
  (decB f, String.intercalate "\n" (headB f ++ body ++ tailB f), specs)

/-- The spec tag one signature contributes in
`_generate_from_outargs_and_return`. -/
def genC_spec (f : FusedRec) (p : Nat × Sig) : String :=
  let cp := get_common f p.1 p.2
  String.mk cp.incodes ++ "*" ++ String.mk (cp.outcodes ++ cp.retcode) ++ "->v"

/-- The body lines one signature contributes in
`_generate_from_outargs_and_return`. -/
def genC_body (f : FusedRec) (p : Nat × Sig) : List String :=
  let cp := get_common f p.1 p.2
  let inCall := get_incallvars f cp.intypes cp.c
  let oc := get_outcallvars f cp.outtypes cp.c
  let call0 := cp.funcName ++ "(" ++ String.intercalate ", " (inCall ++ oc.1) ++ ")"
  let call1 := if cp.c && cp.rettype == "double complex" then
      "_complexstuff.double_complex_from_npy_cdouble(" ++ call0 ++ ")"
    else call0
  let call := f.outvars.headD "" ++ "[0] = " ++ call1
  cp.lines ++ [cp.sp ++ call] ++ oc.2.2.map (fun x => cp.sp ++ x)

/-- The specialization branches of `_generate_from_outargs_and_return`. -/
def genC_branches (f : FusedRec) : List String × List String × List String :=
  f.signatures.enum.foldl
    (fun (acc : List String × List String × List String) p =>
      (acc.1 ++ [genC_spec f p], acc.2.1 ++ genC_body f p,
       tmpsInsert acc.2.2 (genTmps f p)))
    ([], [], [])

/-- The declaration line of `_generate_from_outargs_and_return`. -/
def decC (f : FusedRec) : String :=
  "cdef void " ++ f.name ++ "(" ++ String.intercalate ", "
    ((f.intypes.zip f.invars).map (fun p => p.1.1 ++ " " ++ p.2) ++
     (f.outtypes.zip f.outvars).map (fun p => p.1.1 ++ " *" ++ p.2)) ++
    ") nogil"

/-- The function head of `_generate_from_outargs_and_return`. -/
def headC (f : FusedRec) : List String :=
  [decC f ++ ":", "    \"\"\"" ++ f.doc ++ "\"\"\""] ++
    get_tmp_decs (genC_branches f).2.2

/-- `FusedFunc._generate_from_outargs_and_return`: `(dec, src, specs)`. -/
def generate_from_outargs_and_return (f : FusedRec) :
    String × String × List String :=
  let specs := (genC_branches f).1
  let body := if 1 < specs.length then (genC_branches f).2.1 ++ get_nan_decs f
    else (genC_branches f).2.1
  (decC f, String.intercalate "\n" (headC f ++ body), specs)

/-- `FusedFunc.generate`: select the call shape from the first signature and
produce `(dec, src, specs, fused_types, wrap)`.  An empty signature list,
which would raise an `IndexError` in the source, is reported as an error. -/
def fusedGenerate (f : FusedRec) :
    Except String (String × String × List String × List String × Option String) :=
  match f.signatures with
  | [] => .error "Invalid signature"
  | s0 :: _ =>
    let retcode0 := stripStar s0.ret
    let retcode := if retcode0.isEmpty then ['v'] else retcode0
    let wrap := if 1 < f.outvars.length then some (get_python_wrap f) else none
    if s0.outarg.length = 0 ∧ retcode ≠ ['v'] then
      let r := generate_from_return_and_no_outargs f
      .ok (r.1, r.2.1, r.2.2, f.fused_types, wrap)
    else if 0 < s0.outarg.length ∧ retcode = ['v'] then
      let r := generate_from_outargs_and_no_return f
      .ok (r.1, r.2.1, r.2.2, f.fused_types, wrap)
    else if 0 < s0.outarg.length ∧ retcode ≠ ['v'] then
      let r := generate_from_outargs_and_return f
      .ok (r.1, r.2.1, r.2.2, f.fused_types, wrap)
    else .error "Invalid signature"

/-- A line of the sentinel fallback of a scalar dispatch function: a
conditional selecting a generic-axis type code (`if`/`elif`/`else`), a
sentinel assignment to an output slot, or a sentinel return, at the
fallback's indentation levels. -/
def fallbackLine (f : FusedRec) (s : String) : Prop :=
  (∃ r, s = "        " ++ ("if " ++ r)) ∨
  (∃ r, s = "        " ++ ("elif " ++ r)) ∨
  s = "        else:" ∨
  (∃ var c code, var ∈ f.outvars ∧ code ∈ f.outcodes ∧ c ∈ code ∧
    (s = "        " ++ var ++ "[0] = " ++ NAN_VALUE c ∨
     s = "            " ++ (var ++ "[0] = " ++ NAN_VALUE c))) ∨
  (∃ c code, code ∈ f.outcodes ∧ c ∈ code ∧
    (s = "        " ++ ("return " ++ NAN_VALUE c) ∨
     s = "            " ++ ("return " ++ NAN_VALUE c)))

/-- The fused output-type entries collected by the first `_get_nan_decs`
loop, and their code axes: the generic output axes whose Cartesian product
the fallback ladder covers. -/
def nanFused (f : FusedRec) : List (String × List Char) :=
  ((f.outvars.zip (f.outtypes.zip f.outcodes)).foldl nanDecsStep
    ([], ["    else:"], [])).1

/-- The code axes of the fused output types. -/
def nanAxes (f : FusedRec) : List (List Char) :=
  (nanFused f).map fun ft => ft.2

/-- The lines emitted by the first `_get_nan_decs` loop: the opening `else:`
and the unconditional sentinel assignments of the non-fused outputs. -/
def nanLines (f : FusedRec) : List String :=
  ((f.outvars.zip (f.outtypes.zip f.outcodes)).foldl nanDecsStep
    ([], ["    else:"], [])).2.1

/-- Coverage of the return-value fallback ladder
(`_generate_from_return_and_no_outargs`): a one-code return axis gets its
sentinel returned unconditionally; a fused return axis gets one conditional
block per code, each returning that code's sentinel. -/
def returnFallbackCovers (axis : List Char) (lines : List String) : Prop :=
  (axis.length = 1 ∧
    lines = ["    else:",
      "        " ++ ("return " ++ NAN_VALUE (axis.headD ' '))]) ∨
  (axis.length ≠ 1 ∧
    ∃ blocks : List (List String), lines = "    else:" :: blocks.flatten ∧
      blocks.length = axis.length ∧
      ∀ i, i < axis.length →
        ∃ cond, blocks.getD i [] =
          ["        " ++ cond,
           "            " ++ ("return " ++ NAN_VALUE (axis.getD i ' '))])

/-- Coverage of the `_get_nan_decs` fallback: after the opening `else:`,
every one-code output slot is assigned its code's sentinel unconditionally;
every fused output slot has an axis among `axes`; and there is one
conditional block per combination in the Cartesian product of `axes`, inside
which every fused output slot is assigned the sentinel of its own axis's
code in that combination. -/
def nanFallbackCovers (f : FusedRec) (axes : List (List Char))
    (lines : List String) : Prop :=
  ∃ (step1 : List String) (blocks : List (List String)),
    lines = "    else:" :: (step1 ++ blocks.flatten) ∧
    (∀ j, j < f.outvars.length → (f.outcodes.getD j []).length = 1 →
      ("        " ++ f.outvars.getD j "" ++ "[0] = " ++
        NAN_VALUE ((f.outcodes.getD j []).headD ' ')) ∈ step1) ∧
    (∀ j, j < f.outvars.length → (f.outcodes.getD j []).length ≠ 1 →
      ∃ n, n < axes.length ∧ axes.getD n [] = f.outcodes.getD j []) ∧
    (axes ≠ [] → blocks.length = (listProduct axes).length) ∧
    (∀ i, i < blocks.length →
      ∃ (cond : String) (decs : List String),
        blocks.getD i [] =
          ("        " ++ cond) :: decs.map (fun d => "            " ++ d) ∧
        ∀ j, j < f.outvars.length → (f.outcodes.getD j []).length ≠ 1 →
          ∃ n, n < axes.length ∧ axes.getD n [] = f.outcodes.getD j [] ∧
            (f.outvars.getD j "" ++ "[0] = " ++
              NAN_VALUE (((listProduct axes).getD i []).getD n ' ')) ∈ decs)

/-- Invariant of the `add_variant` fold after processing the candidate list
`P`: every processed input tuple is in `seen`, `seen` and the variant input
tuples coincide, the variant input tuples are duplicate-free, and every
variant was produced by the first processed candidate with its input tuple. -/
def FoldInv (P : List Cand) (st : VarState) : Prop :=
  (∀ p ∈ P, p.inp ∈ st.seen) ∧
  (∀ t ∈ st.seen, ∃ v ∈ st.variants, v.inp = t) ∧
  (∀ v ∈ st.variants, v.inp ∈ st.seen) ∧
  (st.variants.map Variant.inp).Nodup ∧
  (∀ v ∈ st.variants, ∃ c, P.find? (fun c2 => c2.inp == v.inp) = some c ∧
    candVariant c = .ok v)

/-! Helper lemmas about string concatenation of emitted code. -/

theorem foldl_append_eq (l : List String) (a : String) :
    l.foldl (fun r s => r ++ s) a = a ++ l.foldl (fun r s => r ++ s) "" := by
  induction l generalizing a with
  | nil => simp
  | cons x xs ih =>
    simp only [List.foldl_cons]
    rw [ih (a ++ x), ih ("" ++ x), String.empty_append, String.append_assoc]

theorem join_cons (x : String) (xs : List String) :
    String.join (x :: xs) = x ++ String.join xs := by
  simp only [String.join, List.foldl_cons]
  rw [String.empty_append, foldl_append_eq]

theorem join_decomp {c : String} {l : List String} (h : c ∈ l) :
    ∃ pre post, String.join l = pre ++ c ++ post := by
  induction l with
  | nil => cases h
  | cons x xs ih =>
    rcases List.mem_cons.mp h with h | h
    · exact ⟨"", String.join xs, by rw [join_cons, h, String.empty_append]⟩
    · obtain ⟨p, q, hpq⟩ := ih h
      exact ⟨x ++ p, q, by rw [join_cons, hpq]; simp [String.append_assoc]⟩

theorem intercalate_go_eq (s : String) (as : List String) :
    ∀ acc, String.intercalate.go acc s as =
      acc ++ String.join (as.map fun a => s ++ a) := by
  induction as with
  | nil => intro acc; simp [String.intercalate.go, String.join]
  | cons a as ih =>
    intro acc
    rw [String.intercalate.go, ih]
    simp only [List.map_cons, join_cons]
    simp [String.append_assoc]

theorem intercalate_decomp (s : String) {c : String} {l : List String}
    (h : c ∈ l) :
    ∃ pre post, String.intercalate s l = pre ++ c ++ post := by
  match l, h with
  | a :: as, h =>
    rcases List.mem_cons.mp h with h | h
    · refine ⟨"", String.join (as.map fun a => s ++ a), ?_⟩
      rw [String.intercalate, intercalate_go_eq, h, String.empty_append]
    · obtain ⟨p, q, hpq⟩ := join_decomp (List.mem_map_of_mem (fun a => s ++ a) h)
      refine ⟨a ++ p ++ s, q, ?_⟩
      rw [String.intercalate, intercalate_go_eq, hpq]
      simp [String.append_assoc]

theorem filterMap_ite_eq_filter_map {α β : Type} (p : α → Bool) (f : α → β)
    (l : List α) :
    (l.filterMap fun a => if p a then some (f a) else none) =
      (l.filter p).map f := by
  induction l with
  | nil => rfl
  | cons x xs ih =>
    by_cases h : p x <;> simp [List.filterMap_cons, List.filter_cons, h, ih]

theorem iter_variants_eq (inputs outputs : List Char) :
    iter_variants inputs outputs =
      if inputs.contains 'i' || inputs.contains 'l' then
        [(replaceChar inputs 'i' 'l', replaceChar outputs 'i' 'l')]
      else
        [(replaceChar inputs 'i' 'l', replaceChar outputs 'i' 'l'),
         (replaceChar (replaceChar (replaceChar inputs 'i' 'l') 'd' 'f') 'D' 'F',
          replaceChar (replaceChar (replaceChar outputs 'i' 'l') 'd' 'f') 'D' 'F')] := by
  cases h : inputs.contains 'i' || inputs.contains 'l' <;>
    · unfold iter_variants
      rw [h]
      rfl

theorem iter_variants_headD (inputs outputs : List Char) :
    (iter_variants inputs outputs).headD ([], []) =
      (replaceChar inputs 'i' 'l', replaceChar outputs 'i' 'l') := by
  rw [iter_variants_eq]
  split <;> rfl

/-- C2: the variant expander produces a reduced-precision variant (the image
of the canonicalized signature under `d -> f`, `D -> F`) if and only if the
inputs contain no integer code (`i` or `l`); the canonicalized variant (every
`i` replaced by `l`) is always produced, and nothing else is. -/
theorem iter_variants_reduced_precision_iff (inputs outputs : List Char) :
    iter_variants inputs outputs =
      if inputs.contains 'i' || inputs.contains 'l' then
        [(replaceChar inputs 'i' 'l', replaceChar outputs 'i' 'l')]
      else
        [(replaceChar inputs 'i' 'l', replaceChar outputs 'i' 'l'),
         (replaceChar (replaceChar (replaceChar inputs 'i' 'l') 'd' 'f') 'D' 'F',
          replaceChar (replaceChar (replaceChar outputs 'i' 'l') 'd' 'f') 'D' 'F')] :=
  iter_variants_eq inputs outputs

/-- C1: in every loop the synthesizer emits, the input-side equality
round-trip guards are exactly those for input positions whose (dispatch row
code, kernel code) pair lies in `DANGEROUS_DOWNCAST`, each such guard text
occurs in the loop body, the per-output assignment blocks are emitted in
sequence, and an output cast gets the round-trip guard (cast, cast back,
compare, with error and sentinel on mismatch) exactly when its (kernel code,
row code) pair lies in the table, a plain cast-and-store otherwise. -/
theorem generate_loop_dangerous_guard_iff (fi fo fr ui uo : List Char)
    (nm : String) (chunks : List String)
    (hok : generate_loop_chunks fi fo fr ui uo = .ok (nm, chunks)) :
    input_checks fi ui =
      ((List.range fi.length).filter fun j =>
        dangerous (ui.getD j 'v') (fi.getD j 'v')).map
        (fun j => inputCheck (ui.getD j 'v') (fi.getD j 'v') j) ∧
    (∀ chk ∈ input_checks fi ui,
      ∃ pre post, String.join chunks = pre ++ chk ++ post) ∧
    (∃ pre post, chunks = pre ++
      ((uo.zip (loop_outtypecodes fo fr uo)).enum.map fun p =>
        outputAssign p.1 p.2.1 p.2.2).flatten ++ post) ∧
    (∀ j t ft, dangerousKey ft t = true →
      outputAssign j t ft =
        ["        if ov" ++ toString j ++ " == <" ++ CY_TYPES t ++ ">ov" ++
           toString j ++ ":\n",
         "            (<" ++ CY_TYPES t ++ " *>op" ++ toString j ++ ")[0] = <" ++
           CY_TYPES t ++ ">ov" ++ toString j ++ "\n",
         "        else:\n",
         sfErrorOutputLine,
         "            (<" ++ CY_TYPES t ++ " *>op" ++ toString j ++ ")[0] = <" ++
           CY_TYPES t ++ ">" ++ NAN_VALUE t ++ "\n"]) ∧
    (∀ j t ft, dangerousKey ft t = false →
      outputAssign j t ft =
        ["        (<" ++ CY_TYPES t ++ " *>op" ++ toString j ++ ")[0] = <" ++
           CY_TYPES t ++ ">ov" ++ toString j ++ "\n"]) := by
  simp only [generate_loop_chunks] at hok
  split at hok
  · exact absurd hok (by simp)
  · split at hok
    · exact absurd hok (by simp)
    · simp only [Except.ok.injEq, Prod.mk.injEq] at hok
      obtain ⟨-, hch⟩ := hok
      refine ⟨filterMap_ite_eq_filter_map _ _ _, ?_, ?_, ?_, ?_⟩
      · intro chk hchk
        have hne : ¬(input_checks fi ui).isEmpty := by
          cases h : input_checks fi ui with
          | nil => rw [h] at hchk; cases hchk
          | cons a as => simp [h]
        have hifmem : ("        if " ++
            String.intercalate " and " (input_checks fi ui) ++ ":\n") ∈ chunks := by
          rw [← hch]
          simp [hne]
        obtain ⟨p1, q1, h1⟩ := join_decomp hifmem
        obtain ⟨p2, q2, h2⟩ := intercalate_decomp " and " hchk
        refine ⟨p1 ++ "        if " ++ p2, q2 ++ ":\n" ++ q1, ?_⟩
        rw [h1, h2]
        simp [String.append_assoc]
      · exact ⟨_, _, hch.symm⟩
      · intro j t ft hd
        simp [outputAssign, hd]
      · intro j t ft hd
        simp [outputAssign, hd]

theorem prefix_ne {p rest t : String} (h : p.data ≠ t.data.take p.data.length) :
    (p ++ rest) ≠ t := by
  intro he
  apply h
  have h2 : (p ++ rest).data.take p.data.length = t.data.take p.data.length := by
    rw [he]
  rwa [String.data_append, List.take_left] at h2

/-- C4: when an output value fails its dangerous-downcast equality check, the
emitted code writes that output's per-code sentinel (`NPY_NAN` for
floating/complex codes, `0xbad0bad0` for integer codes), reports exactly one
domain error in that branch, emits every other output's block from that
output's own codes alone, and the loop then advances to the next element and
ends in the floating-point-exception drain rather than aborting. -/
theorem generate_loop_failed_downcast_sentinel (fi fo fr ui uo : List Char)
    (nm : String) (chunks : List String) (j : Nat) (t : Char) (ft : List Char)
    (hok : generate_loop_chunks fi fo fr ui uo = .ok (nm, chunks))
    (hj : (uo.zip (loop_outtypecodes fo fr uo)).getD j ('v', []) = (t, ft))
    (hjlen : j < (uo.zip (loop_outtypecodes fo fr uo)).length)
    (hd : dangerousKey ft t = true) :
    (∃ pre post, chunks = pre ++
      ((uo.zip (loop_outtypecodes fo fr uo)).enum.map fun p =>
        outputAssign p.1 p.2.1 p.2.2).flatten ++ post) ∧
    (∀ k, k < (uo.zip (loop_outtypecodes fo fr uo)).length →
      ((uo.zip (loop_outtypecodes fo fr uo)).enum.map fun p =>
        outputAssign p.1 p.2.1 p.2.2).getD k [] =
      outputAssign k ((uo.zip (loop_outtypecodes fo fr uo)).getD k ('v', [])).1
        ((uo.zip (loop_outtypecodes fo fr uo)).getD k ('v', [])).2) ∧
    outputAssign j t ft =
      ["        if ov" ++ toString j ++ " == <" ++ CY_TYPES t ++ ">ov" ++
         toString j ++ ":\n",
       "            (<" ++ CY_TYPES t ++ " *>op" ++ toString j ++ ")[0] = <" ++
         CY_TYPES t ++ ">ov" ++ toString j ++ "\n",
       "        else:\n",
       sfErrorOutputLine,
       "            (<" ++ CY_TYPES t ++ " *>op" ++ toString j ++ ")[0] = <" ++
         CY_TYPES t ++ ">" ++ NAN_VALUE t ++ "\n"] ∧
    (outputAssign j t ft).count sfErrorOutputLine = 1 ∧
    (NAN_VALUE 'i' = "0xbad0bad0" ∧ NAN_VALUE 'l' = "0xbad0bad0" ∧
     NAN_VALUE 'f' = "NPY_NAN" ∧ NAN_VALUE 'd' = "NPY_NAN" ∧
     NAN_VALUE 'g' = "NPY_NAN" ∧ NAN_VALUE 'F' = "NPY_NAN" ∧
     NAN_VALUE 'D' = "NPY_NAN" ∧ NAN_VALUE 'G' = "NPY_NAN") ∧
    chunks.getLast? = some "    sf_error.check_fpe(func_name)\n" := by
  have h1 : ("        if ov" ++ toString j ++ " == <" ++ CY_TYPES t ++ ">ov" ++
      toString j ++ ":\n") ≠ sfErrorOutputLine := by
    simp only [String.append_assoc]
    exact prefix_ne (by decide)
  have h2 : ("            (<" ++ CY_TYPES t ++ " *>op" ++ toString j ++
      ")[0] = <" ++ CY_TYPES t ++ ">ov" ++ toString j ++ "\n") ≠
      sfErrorOutputLine := by
    simp only [String.append_assoc]
    exact prefix_ne (by decide)
  have h3 : ("        else:\n" : String) ≠ sfErrorOutputLine := by decide
  have h5 : ("            (<" ++ CY_TYPES t ++ " *>op" ++ toString j ++
      ")[0] = <" ++ CY_TYPES t ++ ">" ++ NAN_VALUE t ++ "\n") ≠
      sfErrorOutputLine := by
    simp only [String.append_assoc]
    exact prefix_ne (by decide)
  simp only [generate_loop_chunks] at hok
  split at hok
  · exact absurd hok (by simp)
  · split at hok
    · exact absurd hok (by simp)
    · simp only [Except.ok.injEq, Prod.mk.injEq] at hok
      obtain ⟨-, hch⟩ := hok
      refine ⟨⟨_, _, hch.symm⟩, ?_, ?_, ?_, by decide, ?_⟩
      · intro k hk
        have hk2 : k < ((uo.zip (loop_outtypecodes fo fr uo)).enum.map fun p =>
            outputAssign p.1 p.2.1 p.2.2).length := by
          simpa using hk
        rw [List.getD_eq_getElem _ _ hk2, List.getD_eq_getElem _ _ hk]
        simp
      · simp [outputAssign, hd]
      · rw [outputAssign, if_pos hd]
        simp only [sfErrorOutputLine] at h1 h2 h3 h5
        simp [List.count_cons, h1, h2, h3, h5, sfErrorOutputLine]
      · rw [← hch]
        simp only [List.getLast?_append, List.getLast?_concat, Option.or_some]
        rfl

/-- Witness for C1: a concrete loop (kernel `d -> d` dispatched on a `D` row)
whose single input cast `D -> d` is dangerous, evaluated concretely. -/
theorem generate_loop_dangerous_guard_iff_witness :
    ∃ nm chunks, generate_loop_chunks ['d'] [] ['d'] ['D'] ['D'] = .ok (nm, chunks) ∧
      (∀ chk ∈ input_checks ['d'] ['D'],
        ∃ pre post, String.join chunks = pre ++ chk ++ post) :=
  ⟨_, _, rfl, (generate_loop_dangerous_guard_iff ['d'] [] ['d'] ['D'] ['D'] _ _
    rfl).2.1⟩

/-- Witness for C4: a concrete loop whose return value (code `d`) is stored
into an `i` output row, a dangerous downcast, evaluated concretely. -/
theorem generate_loop_failed_downcast_sentinel_witness :
    ((List.zip ['i'] (loop_outtypecodes [] ['d'] ['i'])).getD 0 ('v', []) =
        ('i', ['d']) ∧
      0 < (List.zip ['i'] (loop_outtypecodes [] ['d'] ['i'])).length ∧
      dangerousKey ['d'] 'i' = true) ∧
    ∃ nm chunks, generate_loop_chunks ['d'] [] ['d'] ['d'] ['i'] = .ok (nm, chunks) ∧
      (outputAssign 0 'i' ['d']).count sfErrorOutputLine = 1 :=
  ⟨⟨by decide, by decide, by decide⟩,
   _, _, rfl,
   (generate_loop_failed_downcast_sentinel ['d'] [] ['d'] ['d'] ['i'] _ _ 0 'i'
     ['d'] rfl (by decide) (by decide) (by decide)).2.2.2.1⟩

theorem listNatLe_refl (a : List Nat) : listNatLe a a = true := by
  induction a with
  | nil => rfl
  | cons x xs ih => simp [listNatLe, ih]

theorem listNatLe_cons {a b : Nat} {as bs : List Nat} :
    listNatLe (a :: as) (b :: bs) = true ↔
      a < b ∨ (a = b ∧ listNatLe as bs = true) := by
  simp only [listNatLe]
  by_cases h1 : a < b
  · simp [h1]
  · by_cases h2 : b < a
    · rw [if_neg h1, if_pos h2]
      constructor
      · intro h; simp at h
      · rintro (h | ⟨he, -⟩) <;> omega
    · have he : a = b := by omega
      simp [h1, h2, he]

theorem listNatLe_trans : ∀ {a b c : List Nat}, listNatLe a b = true →
    listNatLe b c = true → listNatLe a c = true
  | [], _, _, _, _ => rfl
  | _ :: _, [], _, h, _ => by simp [listNatLe] at h
  | _ :: _, _ :: _, [], _, h => by simp [listNatLe] at h
  | a :: as, b :: bs, c :: cs, h1, h2 => by
    rw [listNatLe_cons] at h1 h2 ⊢
    rcases h1 with h1 | ⟨he1, ht1⟩
    · rcases h2 with h2 | ⟨he2, ht2⟩
      · exact Or.inl (by omega)
      · exact Or.inl (by omega)
    · rcases h2 with h2 | ⟨he2, ht2⟩
      · exact Or.inl (by omega)
      · exact Or.inr ⟨by omega, listNatLe_trans ht1 ht2⟩

theorem listNatLe_total : ∀ (a b : List Nat),
    (listNatLe a b || listNatLe b a) = true
  | [], _ => by simp [listNatLe]
  | _ :: _, [] => by simp [listNatLe]
  | a :: as, b :: bs => by
    rw [Bool.or_eq_true, listNatLe_cons, listNatLe_cons]
    rcases Nat.lt_trichotomy a b with h | h | h
    · exact Or.inl (Or.inl h)
    · have ih := listNatLe_total as bs
      rw [Bool.or_eq_true] at ih
      rcases ih with ih | ih
      · exact Or.inl (Or.inr ⟨h, ih⟩)
      · exact Or.inr (Or.inr ⟨h.symm, ih⟩)
    · exact Or.inr (Or.inl h)

theorem variantLe_trans (a b c : Variant) (h1 : variantLe a b)
    (h2 : variantLe b c) : variantLe a c :=
  listNatLe_trans h1 h2

theorem variantLe_total (a b : Variant) : variantLe a b || variantLe b a :=
  listNatLe_total (cast_order a.inp) (cast_order b.inp)

/-- C3: the final variant table is the stable sort of the deduplicated
variants by the `cast_order` rank tuple of the input codes: the result is
pairwise ordered ascending in that key, and any two variants with equal rank
tuples keep their prior relative order. -/
theorem variants_sorted_stable (uname : String) (sigs : List Sig)
    (L : List (String × String)) (st : VarState) (i o : Nat)
    (hok : raw_variants uname sigs L = .ok (st, i, o)) :
    get_signatures_and_loops uname sigs L =
      .ok (st.variants.mergeSort variantLe, i, o, st.allLoops) ∧
    (st.variants.mergeSort variantLe).Pairwise
      (fun a b => listNatLe (cast_order a.inp) (cast_order b.inp) = true) ∧
    ∀ a b : Variant, cast_order a.inp = cast_order b.inp →
      List.Sublist [a, b] st.variants →
      List.Sublist [a, b] (st.variants.mergeSort variantLe) := by
  refine ⟨?_, ?_, ?_⟩
  · simp only [get_signatures_and_loops, hok, Except.map]
  · exact List.sorted_mergeSort variantLe_trans variantLe_total st.variants
  · intro a b hk hsub
    refine List.pair_sublist_mergeSort variantLe_trans variantLe_total ?_ hsub
    show variantLe a b = true
    unfold variantLe
    rw [hk]
    exact listNatLe_refl _

/-- Witness for C3: the `beta` group (`beta: dd->d`), evaluated concretely. -/
theorem variants_sorted_stable_witness :
    ∃ st i o, raw_variants "beta" [⟨"beta", ['d', 'd'], [], ['d'], "cephes.h"⟩]
        [] = .ok (st, i, o) ∧
      (st.variants.mergeSort variantLe).Pairwise
        (fun a b => listNatLe (cast_order a.inp) (cast_order b.inp) = true) :=
  ⟨_, _, _, rfl, (variants_sorted_stable "beta"
    [⟨"beta", ['d', 'd'], [], ['d'], "cephes.h"⟩] [] _ _ _ rfl).2.1⟩

theorem add_variant_inv {u : String} {a b : Nat} {P : List Cand}
    {st st2 : VarState} {c : Cand} (hinv : FoldInv P st)
    (hok : add_variant u a b st c = .ok st2) : FoldInv (P ++ [c]) st2 := by
  obtain ⟨i1, i2, i3, i4, i5⟩ := hinv
  unfold add_variant at hok
  by_cases hs : st.seen.contains c.inp
  · rw [if_pos hs] at hok
    simp only [Except.ok.injEq] at hok
    subst hok
    have hmem : c.inp ∈ st.seen := by simpa [List.contains] using hs
    refine ⟨?_, i2, i3, i4, ?_⟩
    · intro p hp
      rcases List.mem_append.mp hp with hp | hp
      · exact i1 p hp
      · rw [List.mem_singleton.mp hp]; exact hmem
    · intro v hv
      obtain ⟨c0, hf, hcv⟩ := i5 v hv
      exact ⟨c0, by rw [List.find?_append, hf]; rfl, hcv⟩
  · rw [if_neg hs] at hok
    have hnmem : c.inp ∉ st.seen := by simpa [List.contains] using hs
    split at hok
    · exact absurd hok (by simp)
    · split at hok
      · exact absurd hok (by simp)
      · split at hok
        · exact absurd hok (by simp)
        · rename_i nm chunks heq
          simp only [Except.ok.injEq] at hok
          subst hok
          have hfind : P.find? (fun c2 => c2.inp == c.inp) = none := by
            rw [List.find?_eq_none]
            intro x hx hbeq
            exact hnmem (by rw [← eq_of_beq hbeq]; exact i1 x hx)
          refine ⟨?_, ?_, ?_, ?_, ?_⟩
          · intro p hp
            rcases List.mem_append.mp hp with hp | hp
            · exact List.mem_append_left _ (i1 p hp)
            · rw [List.mem_singleton.mp hp]
              exact List.mem_append_right _ (List.mem_singleton.mpr rfl)
          · intro t ht
            rcases List.mem_append.mp ht with ht | ht
            · obtain ⟨v, hv, hvt⟩ := i2 t ht
              exact ⟨v, List.mem_append_left _ hv, hvt⟩
            · refine ⟨⟨c.funcName, nm, c.inp, c.outp⟩,
                List.mem_append_right _ (List.mem_singleton.mpr rfl), ?_⟩
              rw [List.mem_singleton.mp ht]
          · intro v hv
            rcases List.mem_append.mp hv with hv | hv
            · exact List.mem_append_left _ (i3 v hv)
            · rw [List.mem_singleton.mp hv]
              exact List.mem_append_right _ (List.mem_singleton.mpr rfl)
          · rw [List.map_append]
            rw [List.nodup_append]
            refine ⟨i4, List.nodup_singleton _, ?_⟩
            intro x hx hx2
            simp only [List.map_cons, List.map_nil, List.mem_singleton] at hx2
            subst hx2
            obtain ⟨v, hv, hvx⟩ := List.mem_map.mp hx
            exact hnmem (hvx ▸ i3 v hv)
          · intro v hv
            rcases List.mem_append.mp hv with hv | hv
            · obtain ⟨c0, hf, hcv⟩ := i5 v hv
              exact ⟨c0, by rw [List.find?_append, hf]; rfl, hcv⟩
            · rw [List.mem_singleton.mp hv]
              refine ⟨c, ?_, ?_⟩
              · rw [List.find?_append, hfind]
                simp [List.find?_cons_of_pos]
              · simp [candVariant, heq, Except.map]

theorem foldlM_add_variant_inv {u : String} {a b : Nat} :
    ∀ {cs : List Cand} {P : List Cand} {st st2 : VarState}, FoldInv P st →
      cs.foldlM (fun st c => add_variant u a b st c) st = .ok st2 →
      FoldInv (P ++ cs) st2 := by
  intro cs
  induction cs with
  | nil =>
    intro P st st2 hinv hok
    simp only [List.foldlM_nil, Except.pure, pure, Except.ok.injEq] at hok
    subst hok
    simpa using hinv
  | cons c cs ih =>
    intro P st st2 hinv hok
    rw [List.foldlM_cons] at hok
    cases h : add_variant u a b st c with
    | error e =>
      rw [h] at hok
      simp only [bind, Except.bind] at hok
      cases hok
    | ok st1 =>
      rw [h] at hok
      simp only [bind, Except.bind] at hok
      have h2 := ih (add_variant_inv hinv h) hok
      rwa [List.append_assoc, List.singleton_append] at h2

theorem get_signatures_inv {uname : String} {sigs : List Sig}
    {L : List (String × String)} {vs : List Variant} {i o : Nat}
    {loops : List (String × String)}
    (hok : get_signatures_and_loops uname sigs L = .ok (vs, i, o, loops)) :
    ∃ st : VarState, FoldInv (allCands sigs) st ∧
      vs = st.variants.mergeSort variantLe := by
  unfold get_signatures_and_loops at hok
  cases sigs with
  | nil =>
    simp only [raw_variants, Except.map, Except.ok.injEq, Prod.mk.injEq] at hok
    refine ⟨⟨[], [], L⟩, ?_, hok.1.symm⟩
    refine ⟨?_, ?_, ?_, ?_, ?_⟩ <;> simp [allCands]
  | cons s0 rest =>
    simp only [raw_variants] at hok
    cases hf : (allCands (s0 :: rest)).foldlM
        (fun st c => add_variant uname s0.inarg.length
          (stripStar s0.ret ++ s0.outarg).length st c)
        (⟨[], [], L⟩ : VarState) with
    | error e => rw [hf] at hok; simp [Except.map] at hok
    | ok st =>
      rw [hf] at hok
      simp only [Except.map, Except.ok.injEq, Prod.mk.injEq] at hok
      refine ⟨st, ?_, hok.1.symm⟩
      have hbase : FoldInv [] (⟨[], [], L⟩ : VarState) := by
        refine ⟨?_, ?_, ?_, ?_, ?_⟩ <;> simp
      have h2 := foldlM_add_variant_inv hbase hf
      simpa using h2

/-- C5: the expanded variant table has pairwise distinct input-code tuples,
and every row was produced by the first candidate (in processing order: base
variants in declaration order, then supplementary variants) with its input
tuple. -/
theorem variants_dedup_first_owner (uname : String) (sigs : List Sig)
    (L : List (String × String)) (vs : List Variant) (i o : Nat)
    (loops : List (String × String))
    (hok : get_signatures_and_loops uname sigs L = .ok (vs, i, o, loops)) :
    (vs.map Variant.inp).Nodup ∧
    ∀ v ∈ vs, ∃ c, (allCands sigs).find? (fun c2 => c2.inp == v.inp) = some c ∧
      candVariant c = .ok v := by
  obtain ⟨st, ⟨-, -, -, i4, i5⟩, hvs⟩ := get_signatures_inv hok
  constructor
  · subst hvs
    exact ((List.mergeSort_perm st.variants variantLe).map Variant.inp).nodup_iff.mpr i4
  · intro v hv
    refine i5 v ?_
    rw [hvs] at hv
    exact List.mem_mergeSort.mp hv

/-- Witness for C5: the `logit` group with three kernels, evaluated
concretely. -/
theorem variants_dedup_first_owner_witness :
    ∃ vs i o loops, get_signatures_and_loops "logit"
      [⟨"logitf", ['f'], [], ['f'], "_logit.h"⟩,
       ⟨"logit", ['d'], [], ['d'], "_logit.h"⟩,
       ⟨"logitl", ['g'], [], ['g'], "_logit.h"⟩] [] = .ok (vs, i, o, loops) ∧
      (vs.map Variant.inp).Nodup :=
  ⟨_, _, _, _, rfl, (variants_dedup_first_owner "logit"
    [⟨"logitf", ['f'], [], ['f'], "_logit.h"⟩,
     ⟨"logit", ['d'], [], ['d'], "_logit.h"⟩,
     ⟨"logitl", ['g'], [], ['g'], "_logit.h"⟩] [] _ _ _ _ rfl).1⟩

theorem find?_eq_get {α : Type} (l : List α) (p : α → Bool) (k : Nat)
    (hk : k < l.length)
    (hbefore : ∀ j, (hj : j < l.length) → j < k → p (l.get ⟨j, hj⟩) = false)
    (hp : p (l.get ⟨k, hk⟩) = true) : l.find? p = some (l.get ⟨k, hk⟩) := by
  induction l generalizing k with
  | nil => cases hk
  | cons x xs ih =>
    cases k with
    | zero => exact List.find?_cons_of_pos _ hp
    | succ k =>
      have hx : p x = false := hbefore 0 (by omega) (by omega)
      rw [List.find?_cons_of_neg _ (by simp [hx])]
      exact ih k (by simpa using Nat.lt_of_succ_lt_succ (by simpa using hk))
        (fun j hj hjk => hbefore (j + 1) (by simpa using Nat.succ_lt_succ hj)
          (by omega)) hp

theorem baseCand_inp (s : Sig) :
    (baseCand s).inp = replaceChar s.inarg 'i' 'l' := by
  show ((iter_variants s.inarg (stripStar s.ret ++ s.outarg)).headD ([], [])).1 = _
  rw [iter_variants_headD]

theorem baseCand_outp (s : Sig) :
    (baseCand s).outp = replaceChar (stripStar s.ret ++ s.outarg) 'i' 'l' := by
  show ((iter_variants s.inarg (stripStar s.ret ++ s.outarg)).headD ([], [])).2 = _
  rw [iter_variants_headD]

/-- Counterexample for C8: for the single signature `sph_harmonic: iidd->D`,
the expanded table's only row has input codes `lldd`, so no row carries the
declared input codes `iidd` unchanged. -/
theorem natural_variant_counterexample :
    ∃ vs i o loops,
      get_signatures_and_loops "sph_harm"
        [⟨"sph_harmonic", ['i', 'i', 'd', 'd'], [], ['D'], "sph_harm.pxd"⟩] []
        = .ok (vs, i, o, loops) ∧
      vs.map Variant.inp = [['l', 'l', 'd', 'd']] ∧
      ¬∃ v ∈ vs, v.inp = ['i', 'i', 'd', 'd'] := by
  have hA : (raw_variants "sph_harm"
      [⟨"sph_harmonic", ['i', 'i', 'd', 'd'], [], ['D'], "sph_harm.pxd"⟩]
      []).map (fun r => r.1.variants.map Variant.inp) =
      .ok [['l', 'l', 'd', 'd']] := rfl
  cases hrw : raw_variants "sph_harm"
      [⟨"sph_harmonic", ['i', 'i', 'd', 'd'], [], ['D'], "sph_harm.pxd"⟩] [] with
  | error e => rw [hrw] at hA; simp [Except.map] at hA
  | ok r =>
    rw [hrw] at hA
    simp only [Except.map, Except.ok.injEq] at hA
    refine ⟨r.1.variants.mergeSort variantLe, r.2.1, r.2.2, r.1.allLoops,
      ?_, ?_, ?_⟩
    · simp only [get_signatures_and_loops, hrw, Except.map]
    · have hp : List.Perm ((r.1.variants.mergeSort variantLe).map Variant.inp)
          (r.1.variants.map Variant.inp) :=
        (List.mergeSort_perm _ _).map _
      rw [hA] at hp
      exact List.perm_singleton.mp hp
    · rintro ⟨v, hv, hinp⟩
      have h1 := List.mem_map_of_mem Variant.inp (List.mem_mergeSort.mp hv)
      rw [hinp, hA] at h1
      simp at h1

/-- C8 (amended): for every Signature, the expanded variant table contains its
canonicalized natural variant — input codes equal to the declared inputs with
every `i` replaced by `l`, output codes equal to the declared outputs prefixed
by the return code (when the dispatcher routes the return value into output
slot 0) likewise canonicalized — provided no earlier signature produces the
same canonicalized input tuple (in that case the dedup rule of the expander
hands the tuple to the earlier signature). -/
theorem natural_variant_canonicalized (uname : String) (sigs : List Sig)
    (L : List (String × String)) (vs : List Variant) (i o : Nat)
    (loops : List (String × String))
    (hok : get_signatures_and_loops uname sigs L = .ok (vs, i, o, loops)) :
    ∀ k, (hk : k < sigs.length) →
      (∀ k2, (hk2 : k2 < sigs.length) → k2 < k →
        replaceChar (sigs.get ⟨k2, hk2⟩).inarg 'i' 'l' ≠
          replaceChar (sigs.get ⟨k, hk⟩).inarg 'i' 'l') →
      ∃ v ∈ vs, v.funcName = (sigs.get ⟨k, hk⟩).funcName ∧
        v.inp = replaceChar (sigs.get ⟨k, hk⟩).inarg 'i' 'l' ∧
        v.outp = replaceChar
          (stripStar (sigs.get ⟨k, hk⟩).ret ++ (sigs.get ⟨k, hk⟩).outarg)
          'i' 'l' := by
  intro k hk hdist
  obtain ⟨st, ⟨i1, i2, i3, i4, i5⟩, hvs⟩ := get_signatures_inv hok
  have hcbmem : baseCand (sigs.get ⟨k, hk⟩) ∈ allCands sigs := by
    unfold allCands
    exact List.mem_append_left _
      (List.mem_map.mpr ⟨sigs.get ⟨k, hk⟩, List.get_mem _ _ _, rfl⟩)
  obtain ⟨v, hv, hvinp⟩ := i2 _ (i1 _ hcbmem)
  obtain ⟨c0, hfind, hcv⟩ := i5 v hv
  have hkm : k < (sigs.map baseCand).length := by simpa using hk
  have hget : (sigs.map baseCand).get ⟨k, hkm⟩ = baseCand (sigs.get ⟨k, hk⟩) :=
    List.get_map ..
  have hbasefind : (sigs.map baseCand).find?
      (fun c2 => c2.inp == v.inp) = some (baseCand (sigs.get ⟨k, hk⟩)) := by
    rw [← hget]
    apply find?_eq_get
    · intro j hj hjk
      have hj2 : j < sigs.length := by simpa using hj
      have hne : (baseCand (sigs.get ⟨j, hj2⟩)).inp ≠ v.inp := by
        rw [hvinp, baseCand_inp, baseCand_inp]
        exact hdist j hj2 hjk
      simpa using hne
    · rw [hget, hvinp]
      simp
  have hfind2 : (allCands sigs).find? (fun c2 => c2.inp == v.inp) =
      some (baseCand (sigs.get ⟨k, hk⟩)) := by
    unfold allCands
    rw [List.find?_append, hbasefind]
    rfl
  rw [hfind2] at hfind
  have hc0 : c0 = baseCand (sigs.get ⟨k, hk⟩) := (Option.some.inj hfind).symm
  rw [hc0] at hcv
  unfold candVariant at hcv
  cases h2 : generate_loop_chunks (baseCand (sigs.get ⟨k, hk⟩)).inarg
      (baseCand (sigs.get ⟨k, hk⟩)).outarg (baseCand (sigs.get ⟨k, hk⟩)).ret
      (baseCand (sigs.get ⟨k, hk⟩)).inp (baseCand (sigs.get ⟨k, hk⟩)).outp with
  | error e => rw [h2] at hcv; simp [Except.map] at hcv
  | ok pr =>
    rw [h2] at hcv
    simp only [Except.map, Except.ok.injEq] at hcv
    refine ⟨v, ?_, ?_, ?_, ?_⟩
    · rw [hvs]; exact List.mem_mergeSort.mpr hv
    · rw [← hcv]
      rfl
    · rw [← hcv]; exact baseCand_inp _
    · rw [← hcv]; exact baseCand_outp _


/-- Witness for C8 (amended): the group `smirnov: id->d, smirnov_unsafe:
dd->d`, second signature, whose canonicalized inputs `dd` differ from the
first signature's `ld`, evaluated concretely. -/
theorem natural_variant_canonicalized_witness :
    ∃ vs i o loops,
      get_signatures_and_loops "smirnov"
        [⟨"smirnov", ['i', 'd'], [], ['d'], "cephes.h"⟩,
         ⟨"smirnov_unsafe", ['d', 'd'], [], ['d'], "_legacy.pxd"⟩] []
        = .ok (vs, i, o, loops) ∧
      ∃ v ∈ vs, v.funcName = "smirnov_unsafe" ∧ v.inp = ['d', 'd'] ∧
        v.outp = ['d'] := by
  refine ⟨_, _, _, _, rfl, ?_⟩
  have h := natural_variant_canonicalized "smirnov"
    [⟨"smirnov", ['i', 'd'], [], ['d'], "cephes.h"⟩,
     ⟨"smirnov_unsafe", ['d', 'd'], [], ['d'], "_legacy.pxd"⟩] [] _ _ _ _ rfl
    1 (by decide) ?_
  · simpa using h
  · intro k2 hk2 hlt
    have hz : k2 = 0 := by omega
    subst hz
    show replaceChar ['i', 'd'] 'i' 'l' ≠ replaceChar ['d', 'd'] 'i' 'l'
    decide

theorem strLe_trans (a b c : String) (h1 : strLe a b = true)
    (h2 : strLe b c = true) : strLe a c = true := by
  simp only [strLe, decide_eq_true_eq] at h1 h2 ⊢
  exact le_trans h1 h2

theorem strLe_total (a b : String) : (strLe a b || strLe b a) = true := by
  simp only [strLe, Bool.or_eq_true, decide_eq_true_eq]
  exact le_total a b

theorem strLe_antisymm (a b : String) (h1 : strLe a b = true)
    (h2 : strLe b a = true) : a = b := by
  simp only [strLe, decide_eq_true_eq] at h1 h2
  exact le_antisymm h1 h2

theorem mergeSort_congr_perm {α : Type} (le : α → α → Bool)
    (htrans : ∀ a b c, le a b → le b c → le a c)
    (htotal : ∀ a b, le a b || le b a)
    (hanti : ∀ a b, le a b = true → le b a = true → a = b)
    {l₁ l₂ : List α} (h : List.Perm l₁ l₂) :
    l₁.mergeSort le = l₂.mergeSort le := by
  letI : IsAntisymm α (fun a b => le a b = true) := ⟨hanti⟩
  refine @List.eq_of_perm_of_sorted α (fun a b => le a b = true) _ _ _ ?_ ?_ ?_
  · exact (List.mergeSort_perm l₁ le).trans (h.trans (List.mergeSort_perm l₂ le).symm)
  · exact List.sorted_mergeSort htrans htotal l₁
  · exact List.sorted_mergeSort htrans htotal l₂

/-- C6: registry parsing is invariant under reordering of the registry lines
(the lines are sorted before parsing), so two runs over the same text — and
even over line-permuted texts — produce identical group lists; the emission
order used by `generate_ufuncs` is sorted ascending by group name.  All
emitted artifacts are pure functions of this ordered group list. -/
theorem generation_deterministic (docs : String → Option String) (t₁ t₂ : String)
    (hperm : List.Perm (splitLines t₁) (splitLines t₂)) :
    parse_all docs t₁ = parse_all docs t₂ ∧
    sortedUfuncs docs t₁ = sortedUfuncs docs t₂ ∧
    (∀ us, sortedUfuncs docs t₁ = .ok us →
      us.Pairwise fun a b => a.name ≤ b.name) := by
  have hsorteq : (splitLines t₁).mergeSort strLe =
      (splitLines t₂).mergeSort strLe :=
    mergeSort_congr_perm strLe strLe_trans strLe_total strLe_antisymm hperm
  have h1 : parse_all docs t₁ = parse_all docs t₂ := by
    unfold parse_all
    rw [hsorteq]
  refine ⟨h1, by unfold sortedUfuncs; rw [h1], ?_⟩
  intro us hus
  unfold sortedUfuncs at hus
  cases hp : parse_all docs t₁ with
  | error e => rw [hp] at hus; simp [Except.map] at hus
  | ok us0 =>
    rw [hp] at hus
    simp only [Except.map, Except.ok.injEq] at hus
    subst hus
    have hs := @List.sorted_mergeSort UfuncRec (fun a b => strLe a.name b.name)
      (fun a b c ha hb => strLe_trans a.name b.name c.name ha hb)
      (fun a b => strLe_total a.name b.name) us0
    refine hs.imp ?_
    intro a b h
    simpa [strLe, decide_eq_true_eq] using h

/-- Witness for C6: a one-line registry compared with itself. -/
theorem generation_deterministic_witness :
    List.Perm (splitLines "gamma -- Gamma: d->d -- cephes.h")
      (splitLines "gamma -- Gamma: d->d -- cephes.h") ∧
    parse_all (fun _ => some "the docstring") "gamma -- Gamma: d->d -- cephes.h" =
      parse_all (fun _ => some "the docstring") "gamma -- Gamma: d->d -- cephes.h" :=
  ⟨List.Perm.refl _, (generation_deterministic (fun _ => some "the docstring")
    "gamma -- Gamma: d->d -- cephes.h" "gamma -- Gamma: d->d -- cephes.h"
    (List.Perm.refl _)).1⟩

theorem foldlM_error {α σ : Type} (f : σ → α → Except String σ) (l : List α)
    (x : α) (hx : x ∈ l) (hf : ∀ s, ∃ e, f s x = .error e) :
    ∀ init, ∃ e, l.foldlM f init = .error e := by
  induction l with
  | nil => cases hx
  | cons y ys ih =>
    intro init
    rw [List.foldlM_cons]
    rcases List.mem_cons.mp hx with rfl | hx2
    · obtain ⟨e, he⟩ := hf init
      exact ⟨e, by rw [he]; rfl⟩
    · cases hy : f init y with
      | error e => exact ⟨e, rfl⟩
      | ok s1 =>
        obtain ⟨e, he⟩ := ih hx2 s1
        exact ⟨e, he⟩

/-- C9: if the documentation provider signals absence for a group whose
registry line parses, the whole `Ufunc` parse run aborts with an error — no
group list (and hence no artifact) is produced. -/
theorem missing_doc_aborts (docs : String → Option String) (text : String)
    (line : String) (hline : line ∈ splitLines text)
    (name sigsStr headersStr : String)
    (hparse : parseLine (trimStr line).data = some (name, sigsStr, headersStr))
    (hdoc : docs ("scipy.special." ++ name) = none) :
    ∃ e, parse_all docs text = .error e := by
  unfold parse_all
  apply foldlM_error _ _ line (List.mem_mergeSort.mpr hline)
  intro acc
  have hne : (trimStr line == "") = false := by
    rw [beq_eq_false_iff_ne]
    intro h
    rw [h] at hparse
    simp [parseLine] at hparse
  cases hsigs : parse_signatures name sigsStr headersStr with
  | error e =>
    refine ⟨e, ?_⟩
    simp [hne, hparse, ufuncInit, hsigs, Except.map, bind, Except.bind]
  | ok sigs =>
    refine ⟨"No docstring for ufunc " ++ name, ?_⟩
    simp [hne, hparse, ufuncInit, hsigs, hdoc, Except.map, bind, Except.bind]

/-- Witness for C9: a parseable one-line registry whose documentation lookup
returns `none`. -/
theorem missing_doc_aborts_witness :
    ("gamma -- Gamma: d->d -- cephes.h" ∈
      splitLines "gamma -- Gamma: d->d -- cephes.h" ∧
     parseLine (trimStr "gamma -- Gamma: d->d -- cephes.h").data =
       some ("gamma", "Gamma: d->d", " cephes.h") ∧
     (fun _ : String => (none : Option String)) ("scipy.special." ++ "gamma") =
       none) ∧
    ∃ e, parse_all (fun _ => none) "gamma -- Gamma: d->d -- cephes.h" =
      .error e :=
  ⟨⟨by decide, by decide, rfl⟩,
   missing_doc_aborts (fun _ => none) "gamma -- Gamma: d->d -- cephes.h"
     "gamma -- Gamma: d->d -- cephes.h" (by decide) "gamma" "Gamma: d->d"
     " cephes.h" (by decide) rfl⟩

theorem mem_replaceChar_il {s : List Char} : 'i' ∉ replaceChar s 'i' 'l' := by
  intro h
  obtain ⟨c, -, hceq⟩ := List.mem_map.mp h
  by_cases h2 : c == 'i'
  · rw [if_pos h2] at hceq
    exact absurd hceq (by decide)
  · rw [if_neg h2] at hceq
    exact absurd hceq (by simpa using h2)

theorem mem_unique_sub {α : Type} [BEq α] {l : List α} :
    ∀ {acc : List α} {x : α},
      x ∈ l.foldl (fun acc x => if acc.contains x then acc else acc ++ [x]) acc →
      x ∈ acc ∨ x ∈ l := by
  induction l with
  | nil => intro acc x h; exact Or.inl h
  | cons y ys ih =>
    intro acc x h
    simp only [List.foldl_cons] at h
    rcases ih h with h2 | h2
    · by_cases hc : acc.contains y
      · rw [if_pos hc] at h2
        exact Or.inl h2
      · rw [if_neg hc] at h2
        rcases List.mem_append.mp h2 with h3 | h3
        · exact Or.inl h3
        · exact Or.inr (List.mem_cons.mpr (Or.inl (List.mem_singleton.mp h3)))
    · exact Or.inr (List.mem_cons.mpr (Or.inr h2))

theorem mem_unique {α : Type} [BEq α] {l : List α} {x : α}
    (h : x ∈ unique l) : x ∈ l := by
  rcases @mem_unique_sub α _ l [] x h with h2 | h2
  · cases h2
  · exact h2

theorem getD_mem_or {α : Type} (l : List α) (n : Nat) (d : α) :
    l.getD n d ∈ l ∨ l.getD n d = d := by
  by_cases h : n < l.length
  · left
    rw [List.getD_eq_getElem l d h]
    exact List.getElem_mem h
  · right
    exact List.getD_eq_default l d (by omega)

theorem col_no_int {β : Type} (elems : List β) (f : β → List Char)
    (hel : ∀ x ∈ elems, 'i' ∉ f x) (n : Nat) :
    'i' ∉ ((unique (elems.map fun x => (f x).getD n ' ')).mergeSort charLe) := by
  intro hi
  have h2 := mem_unique (List.mem_mergeSort.mp hi)
  obtain ⟨x, hx, hxeq⟩ := List.mem_map.mp h2
  rcases getD_mem_or (f x) n ' ' with hm | hm
  · exact hel x hx (hxeq ▸ hm)
  · rw [hxeq] at hm
    cases hm

theorem get_common_incodes (f : FusedRec) (signum : Nat) (sig : Sig) :
    (get_common f signum sig).incodes = replaceChar sig.inarg 'i' 'l' :=
  rfl

theorem get_common_outcodes (f : FusedRec) (signum : Nat) (sig : Sig) :
    (get_common f signum sig).outcodes = replaceChar sig.outarg 'i' 'l' :=
  rfl

theorem get_common_retcode (f : FusedRec) (signum : Nat) (sig : Sig) :
    (get_common f signum sig).retcode =
      if (stripStar (replaceChar sig.ret 'i' 'l')).isEmpty then ['v']
      else stripStar (replaceChar sig.ret 'i' 'l') :=
  rfl

theorem fused_get_codes_no_int (sigs : List Sig) :
    (∀ code ∈ (fused_get_codes sigs).1, 'i' ∉ code) ∧
    (∀ code ∈ (fused_get_codes sigs).2, 'i' ∉ code) := by
  cases sigs with
  | nil => simp [fused_get_codes]
  | cons s0 rest =>
    constructor
    · intro code hcode
      obtain ⟨n, -, hcodeq⟩ := List.mem_map.mp hcode
      rw [← hcodeq]
      refine col_no_int _ Prod.fst ?_ n
      intro x hx
      obtain ⟨s, -, hseq⟩ := List.mem_map.mp hx
      rw [← hseq, iter_variants_headD]
      exact mem_replaceChar_il
    · intro code hcode
      obtain ⟨n, -, hcodeq⟩ := List.mem_map.mp hcode
      rw [← hcodeq]
      refine col_no_int _ Prod.snd ?_ n
      intro x hx
      obtain ⟨s, -, hseq⟩ := List.mem_map.mp hx
      rw [← hseq, iter_variants_headD]
      exact mem_replaceChar_il

/-- C10: the scalar (fused-type) dispatch surface exposes no `i` code: every
fused input and output code column of a group is free of `i` (iter_variants'
first variant canonicalizes `i` to `l`), and for every specialization the
codes `_get_common` generates from (inputs, outputs, return) have every `i`
replaced by `l`. -/
theorem fused_no_int_exposure (name : String) (sigs : List Sig) :
    (∀ code ∈ (mkFusedFunc name sigs).incodes, 'i' ∉ code) ∧
    (∀ code ∈ (mkFusedFunc name sigs).outcodes, 'i' ∉ code) ∧
    (∀ signum : Nat, ∀ sig ∈ sigs,
      'i' ∉ (get_common (mkFusedFunc name sigs) signum sig).incodes ∧
      'i' ∉ (get_common (mkFusedFunc name sigs) signum sig).outcodes ∧
      'i' ∉ (get_common (mkFusedFunc name sigs) signum sig).retcode) := by
  have hin : (mkFusedFunc name sigs).incodes = (fused_get_codes sigs).1 := rfl
  have hout : (mkFusedFunc name sigs).outcodes = (fused_get_codes sigs).2 := rfl
  refine ⟨?_, ?_, ?_⟩
  · rw [hin]; exact (fused_get_codes_no_int sigs).1
  · rw [hout]; exact (fused_get_codes_no_int sigs).2
  · intro signum sig _
    refine ⟨?_, ?_, ?_⟩
    · rw [get_common_incodes]; exact mem_replaceChar_il
    · rw [get_common_outcodes]; exact mem_replaceChar_il
    · rw [get_common_retcode]
      split
      · simp
      · intro h
        exact mem_replaceChar_il (List.takeWhile_subset _ h)

/-- Witness for C10: the mixed-integer group `sph_harm`, first signature. -/
theorem fused_no_int_exposure_witness :
    (⟨"sph_harmonic", ['i', 'i', 'd', 'd'], [], ['D'], "sph_harm.pxd"⟩ : Sig) ∈
      [(⟨"sph_harmonic", ['i', 'i', 'd', 'd'], [], ['D'], "sph_harm.pxd"⟩ : Sig),
       ⟨"sph_harmonic_unsafe", ['d', 'd', 'd', 'd'], [], ['D'], "_legacy.pxd"⟩] ∧
    'i' ∉ (get_common (mkFusedFunc "sph_harm"
      [⟨"sph_harmonic", ['i', 'i', 'd', 'd'], [], ['D'], "sph_harm.pxd"⟩,
       ⟨"sph_harmonic_unsafe", ['d', 'd', 'd', 'd'], [], ['D'], "_legacy.pxd"⟩])
      0 ⟨"sph_harmonic", ['i', 'i', 'd', 'd'], [], ['D'], "sph_harm.pxd"⟩).incodes :=
  ⟨by decide,
   ((fused_no_int_exposure "sph_harm"
     [⟨"sph_harmonic", ['i', 'i', 'd', 'd'], [], ['D'], "sph_harm.pxd"⟩,
      ⟨"sph_harmonic_unsafe", ['d', 'd', 'd', 'd'], [], ['D'], "_legacy.pxd"⟩]).2.2
     0 _ (by decide)).1⟩

theorem foldl_app2 {α β γ : Type} (g1 : α → List β) (g2 : α → List γ) :
    ∀ (l : List α) (acc : List β × List γ),
      l.foldl (fun acc p => (acc.1 ++ g1 p, acc.2 ++ g2 p)) acc =
        (acc.1 ++ (l.map g1).flatten, acc.2 ++ (l.map g2).flatten) := by
  intro l
  induction l with
  | nil => intro acc; simp
  | cons x xs ih =>
    intro acc
    simp only [List.foldl_cons, List.map_cons, List.flatten_cons]
    rw [ih]
    simp [List.append_assoc]

theorem foldl_app2t {α β γ : Type} (g1 : α → List β) (g2 : α → List γ)
    (g3 : α → List String) :
    ∀ (l : List α) (acc : List β × List γ × List String),
      l.foldl (fun acc p =>
        (acc.1 ++ g1 p, acc.2.1 ++ g2 p, tmpsInsert acc.2.2 (g3 p))) acc =
        (acc.1 ++ (l.map g1).flatten, acc.2.1 ++ (l.map g2).flatten,
         l.foldl (fun s p => tmpsInsert s (g3 p)) acc.2.2) := by
  intro l
  induction l with
  | nil => intro acc; simp
  | cons x xs ih =>
    intro acc
    simp only [List.foldl_cons, List.map_cons, List.flatten_cons]
    rw [ih]
    simp [List.append_assoc]

theorem flatten_map_singleton {α β : Type} (g : α → β) (l : List α) :
    (l.map (fun p => [g p])).flatten = l.map g := by
  induction l with
  | nil => rfl
  | cons x xs ih => simp only [List.map_cons, List.flatten_cons, ih]; rfl

theorem zip_map_self {α β : Type} (g : α → β) (l : List α) :
    (l.map g).zip l = l.map (fun x => (g x, x)) := by
  induction l with
  | nil => rfl
  | cons x xs ih => simp [ih]

theorem mem_enum_spec {α : Type} {l : List α} {p : Nat × α} (hp : p ∈ l.enum) :
    p.1 < l.length ∧ p.2 ∈ l := by
  rw [List.mem_enum_iff_getElem?] at hp
  obtain ⟨hlt, hval⟩ := List.getElem?_eq_some.mp hp
  exact ⟨hlt, hval ▸ List.getElem_mem hlt⟩

theorem listProduct_length {α : Type} :
    ∀ {ls : List (List α)} {combo : List α},
      combo ∈ listProduct ls → combo.length = ls.length := by
  intro ls
  induction ls with
  | nil =>
    intro combo h
    simp only [listProduct, List.mem_singleton] at h
    simp [h]
  | cons xs rest ih =>
    intro combo h
    simp only [listProduct, List.mem_flatten, List.mem_map] at h
    obtain ⟨l2, ⟨x, hx, hl2⟩, hcombo⟩ := h
    rw [← hl2] at hcombo
    obtain ⟨r, hr, hre⟩ := List.mem_map.mp hcombo
    rw [← hre]
    simp [ih hr]

theorem listProduct_getD {α : Type} (d : α) :
    ∀ {ls : List (List α)} {combo : List α},
      combo ∈ listProduct ls → ∀ n, n < ls.length →
        combo.getD n d ∈ ls.getD n [] := by
  intro ls
  induction ls with
  | nil => intro combo h n hn; simp at hn
  | cons xs rest ih =>
    intro combo h n hn
    simp only [listProduct, List.mem_flatten, List.mem_map] at h
    obtain ⟨l2, ⟨x, hx, hl2⟩, hcombo⟩ := h
    rw [← hl2] at hcombo
    obtain ⟨r, hr, hre⟩ := List.mem_map.mp hcombo
    subst hre
    cases n with
    | zero => simpa using hx
    | succ m =>
      simp only [List.getD_cons_succ]
      exact ih hr m (by simpa using hn)

theorem foldl_getTypesStep_fst (cs : List (List Char)) :
    ∀ acc : List (String × List Char) × List String,
      (cs.foldl getTypesStep acc).1 =
        acc.1 ++ cs.map (fun code =>
          ((if code.length == 1 then CY_TYPES (code.headD ' ')
            else (generate_fused_type code).1), code)) := by
  induction cs with
  | nil => intro acc; simp
  | cons x xs ih =>
    intro acc
    simp only [List.foldl_cons, List.map_cons]
    rw [ih]
    unfold getTypesStep
    split
    · next hc => simp [hc, List.append_assoc]
    · next hc =>
      split <;> simp [hc, List.append_assoc]

theorem fused_get_types_fst (cs : List (List Char)) :
    (fused_get_types cs).1 = cs.map (fun code =>
      ((if code.length == 1 then CY_TYPES (code.headD ' ')
        else (generate_fused_type code).1), code)) := by
  have h := foldl_getTypesStep_fst cs ([], [])
  simpa [fused_get_types] using h

theorem mkFusedFunc_signatures (name : String) (sigs : List Sig) :
    (mkFusedFunc name sigs).signatures = sigs := rfl

theorem mkFusedFunc_outcodes (name : String) (sigs : List Sig) :
    (mkFusedFunc name sigs).outcodes = (fused_get_codes sigs).2 := rfl

theorem mkFusedFunc_outtypes (name : String) (sigs : List Sig) :
    (mkFusedFunc name sigs).outtypes =
      (fused_get_types (fused_get_codes sigs).2).1 := rfl

theorem mkFusedFunc_outvars (name : String) (sigs : List Sig) :
    (mkFusedFunc name sigs).outvars =
      (List.range (fused_get_types (fused_get_codes sigs).2).1.length).map
        (fun n => "y" ++ toString n) := rfl

theorem get_conditional_shape {types : List (String × List Char)}
    {codes : List Char} {adverb s : String}
    (h : get_conditional types codes adverb = some s) :
    ((adverb == "else") = false ∧ ∃ r, s = adverb ++ " " ++ r ++ ":") ∨
    (adverb = "else" ∧ s = "else:") := by
  simp only [get_conditional] at h
  split at h
  · next hcond =>
    left
    have h2 := (Bool.and_eq_true _ _).mp hcond
    refine ⟨?_, _, (Option.some.inj h).symm⟩
    rw [beq_eq_false_iff_ne]
    exact bne_iff_ne.mp h2.2
  · split at h
    · next hcond =>
      right
      refine ⟨?_, (Option.some.inj h).symm⟩
      have h2 := (Bool.and_eq_true _ _).mp hcond
      exact eq_of_beq h2.2
    · cases h

theorem condStep_grow :
    ∀ (l : List ((String × List Char) × Char)) (acc : List String × List String),
      ∃ ext, (l.foldl (fun (acc : List String × List String) p =>
        if p.1.2.length == 1 then acc
        else if acc.2.contains p.1.1 then acc
        else (acc.1 ++ [p.1.1 ++ " is " ++ underscore (CY_TYPES p.2)],
              acc.2 ++ [p.1.1])) acc).1 = acc.1 ++ ext := by
  intro l
  induction l with
  | nil => intro acc; exact ⟨[], by simp⟩
  | cons x xs ih =>
    intro acc
    simp only [List.foldl_cons]
    by_cases h1 : (x.1.2.length == 1) = true
    · rw [if_pos h1]
      exact ih acc
    · rw [if_neg h1]
      by_cases h2 : acc.2.contains x.1.1
      · rw [if_pos h2]
        exact ih acc
      · rw [if_neg h2]
        obtain ⟨ext, hext⟩ := ih
          (acc.1 ++ [x.1.1 ++ " is " ++ underscore (CY_TYPES x.2)],
           acc.2 ++ [x.1.1])
        exact ⟨[x.1.1 ++ " is " ++ underscore (CY_TYPES x.2)] ++ ext,
          by rw [hext]; simp [List.append_assoc]⟩

theorem get_conditional_isSome (t0 : String × List Char)
    (ts : List (String × List Char)) (c0 : Char) (cs : List Char)
    (adverb : String) (h1 : (t0.2.length == 1) = false) :
    ∃ s, get_conditional (t0 :: ts) (c0 :: cs) adverb = some s := by
  unfold get_conditional
  have hz : (t0 :: ts).zip (c0 :: cs) = (t0, c0) :: ts.zip cs := rfl
  rw [hz]
  simp only [List.foldl_cons]
  rw [show (if ((t0, c0) : (String × List Char) × Char).1.2.length == 1 then
        (([], []) : List String × List String)
      else if List.contains ([] : List String) (t0, c0).1.1 then ([], [])
      else (([] : List String) ++
          [(t0, c0).1.1 ++ " is " ++ underscore (CY_TYPES (t0, c0).2)],
        ([] : List String) ++ [(t0, c0).1.1])) =
      ([t0.1 ++ " is " ++ underscore (CY_TYPES c0)], [t0.1]) by
    rw [if_neg (by simp [h1]), if_neg (by simp)]
    simp]
  obtain ⟨ext, hext⟩ := condStep_grow (ts.zip cs)
    ([t0.1 ++ " is " ++ underscore (CY_TYPES c0)], [t0.1])
  rw [hext]
  by_cases hadv : adverb = "else"
  · exact ⟨"else:", by subst hadv; simp⟩
  · exact ⟨adverb ++ " " ++ String.intercalate " and "
      ([t0.1 ++ " is " ++ underscore (CY_TYPES c0)] ++ ext) ++ ":",
      by simp [hadv]⟩

theorem cython_func_name_head (c : String) :
    ∃ r, cython_func_name c true = "_func_" ++ r := by
  have hEq : cython_func_name c true =
      (if c.data.contains '[' && c.data.getLast? == some ']' then
        "_func_" ++ String.mk (c.data.takeWhile (· ≠ '[')) ++
          String.mk ((c.data.drop (c.data.takeWhile (· ≠ '[')).length).map
            fun ch => if ch == ' ' then '_' else ch)
      else "_func_" ++ c) := rfl
  rw [hEq]
  by_cases hb : (c.data.contains '[' && c.data.getLast? == some ']') = true
  · rw [if_pos hb]
    simp only [String.append_assoc]
    exact ⟨_, rfl⟩
  · rw [if_neg hb]
    exact ⟨c, rfl⟩

theorem commonFuncName_shape (sig : Sig) :
    (∃ r, commonFuncName sig = "_func_" ++ r) ∨
    (∃ r, commonFuncName sig = "(<" ++ r) := by
  unfold commonFuncName
  split
  · right
    simp only [String.append_assoc]
    exact ⟨_, rfl⟩
  · left
    exact cython_func_name_head sig.funcName

theorem get_common_funcName (f : FusedRec) (n : Nat) (sig : Sig) :
    (get_common f n sig).funcName = commonFuncName sig := rfl

theorem get_common_sp (f : FusedRec) (n : Nat) (sig : Sig) :
    (get_common f n sig).sp = "    " ∨ (get_common f n sig).sp = "        " := by
  have hS : (get_common f n sig).sp =
      (match get_conditional f.intypes (replaceChar sig.inarg 'i' 'l')
          (if n == 0 then "if" else "elif") with
        | some _ => "        "
        | none => "    ") := rfl
  rw [hS]
  cases get_conditional f.intypes (replaceChar sig.inarg 'i' 'l')
      (if n == 0 then "if" else "elif") with
  | none => exact Or.inl rfl
  | some c => exact Or.inr rfl

theorem get_common_lines (f : FusedRec) (n : Nat) (sig : Sig) :
    (get_common f n sig).lines = [] ∨
    ∃ r, (get_common f n sig).lines = ["    " ++ ("if " ++ r)] ∨
         (get_common f n sig).lines = ["    " ++ ("elif " ++ r)] := by
  have hL : (get_common f n sig).lines =
      (match get_conditional f.intypes (replaceChar sig.inarg 'i' 'l')
          (if n == 0 then "if" else "elif") with
        | some line => ["    " ++ line]
        | none => []) := rfl
  rw [hL]
  rcases hc : get_conditional f.intypes (replaceChar sig.inarg 'i' 'l')
      (if n == 0 then "if" else "elif") with _ | c
  · exact Or.inl rfl
  · right
    rcases get_conditional_shape hc with ⟨-, r, hr⟩ | ⟨hadv, -⟩
    · by_cases hn : (n == 0) = true
      · refine ⟨r ++ ":", Or.inl ?_⟩
        rw [hr, if_pos hn]
        rfl
      · refine ⟨r ++ ":", Or.inr ?_⟩
        rw [hr, if_neg (by simpa using hn)]
        rfl
    · by_cases hn : (n == 0) = true
      · rw [if_pos hn] at hadv
        exact absurd hadv (by decide)
      · rw [if_neg (by simpa using hn)] at hadv
        exact absurd hadv (by decide)

theorem foldl_app3 {α β γ δ : Type} (g1 : α → List β) (g2 : α → List γ)
    (g3 : α → List δ) :
    ∀ (l : List α) (acc : List β × List γ × List δ),
      l.foldl (fun acc p =>
        (acc.1 ++ g1 p, acc.2.1 ++ g2 p, acc.2.2 ++ g3 p)) acc =
        (acc.1 ++ (l.map g1).flatten, acc.2.1 ++ (l.map g2).flatten,
         acc.2.2 ++ (l.map g3).flatten) := by
  intro l
  induction l with
  | nil => intro acc; simp
  | cons x xs ih =>
    intro acc
    simp only [List.foldl_cons, List.map_cons, List.flatten_cons]
    rw [ih]
    simp [List.append_assoc]

theorem genA_specs_eq (f : FusedRec) :
    (genA_branches f).1 = f.signatures.enum.map (genA_spec f) := by
  unfold genA_branches
  rw [foldl_app2]
  simp [flatten_map_singleton]

theorem genA_bodies_eq (f : FusedRec) :
    (genA_branches f).2 = (f.signatures.enum.map (genA_body f)).flatten := by
  unfold genA_branches
  rw [foldl_app2]
  simp

theorem genB_specs_eq (f : FusedRec) :
    (genB_branches f).1 = f.signatures.enum.map (genB_spec f) := by
  unfold genB_branches
  rw [foldl_app2t]
  simp [flatten_map_singleton]

theorem genB_bodies_eq (f : FusedRec) :
    (genB_branches f).2.1 = (f.signatures.enum.map (genB_body f)).flatten := by
  unfold genB_branches
  rw [foldl_app2t]
  simp

theorem genC_specs_eq (f : FusedRec) :
    (genC_branches f).1 = f.signatures.enum.map (genC_spec f) := by
  unfold genC_branches
  rw [foldl_app2t]
  simp [flatten_map_singleton]

theorem genC_bodies_eq (f : FusedRec) :
    (genC_branches f).2.1 = (f.signatures.enum.map (genC_body f)).flatten := by
  unfold genC_branches
  rw [foldl_app2t]
  simp

theorem enum_length_eq {α : Type} (l : List α) : l.enum.length = l.length :=
  List.enumFrom_length

theorem mkFusedFunc_outvars_mem {name : String} {sigs : List Sig} {v : String}
    (h : v ∈ (mkFusedFunc name sigs).outvars) :
    ∃ m : Nat, v = "y" ++ toString m := by
  rw [mkFusedFunc_outvars] at h
  obtain ⟨m, -, hm⟩ := List.mem_map.mp h
  exact ⟨m, hm.symm⟩

theorem mkFusedFunc_outvars_headD (name : String) (sigs : List Sig) :
    (mkFusedFunc name sigs).outvars.headD "" = "" ∨
    (mkFusedFunc name sigs).outvars.headD "" = "y" ++ toString 0 := by
  rw [mkFusedFunc_outvars]
  cases h : (fused_get_types (fused_get_codes sigs).2).1.length with
  | zero => left; rfl
  | succ k =>
    right
    rw [List.range_succ_eq_map]
    rfl

theorem outcallvarsEntry_casts (c : Bool) (p : Nat × (String × String)) :
    ∀ x ∈ (outcallvarsEntry c p).2.2, ∃ r, x = p.2.1 ++ ("[0] = " ++ r) := by
  intro x hx
  unfold outcallvarsEntry at hx
  split at hx
  · rw [List.mem_singleton] at hx
    subst hx
    exact ⟨"_complexstuff.double_complex_from_npy_cdouble(" ++
        (("tmp" ++ toString p.1) ++ ")"),
      by simp only [String.append_assoc]⟩
  · cases hx

theorem get_outcallvars_casts (f : FusedRec) (ot : List String) (c : Bool) :
    ∀ x ∈ (get_outcallvars f ot c).2.2,
      ∃ v, v ∈ f.outvars ∧ ∃ r, x = v ++ ("[0] = " ++ r) := by
  intro x hx
  unfold get_outcallvars at hx
  rw [foldl_app3] at hx
  simp only [List.nil_append] at hx
  obtain ⟨l2, hl2, hmem⟩ := List.mem_flatten.mp hx
  obtain ⟨p, hp, hpe⟩ := List.mem_map.mp hl2
  rw [← hpe] at hmem
  obtain ⟨r, hr⟩ := outcallvarsEntry_casts c p x hmem
  have hzip := (mem_enum_spec hp).2
  have hv := (List.of_mem_zip hzip).1
  exact ⟨p.2.1, List.mem_of_mem_drop hv, r, hr⟩

theorem genA_body_eq (f : FusedRec) (p : Nat × Sig) :
    ∃ call, genA_body f p =
      (get_common f p.1 p.2).lines ++
      [(get_common f p.1 p.2).sp ++ "return " ++ call] :=
  ⟨_, rfl⟩

theorem genB_body_eq (f : FusedRec) (p : Nat × Sig) :
    ∃ inner, genB_body f p =
      (get_common f p.1 p.2).lines ++
      [(get_common f p.1 p.2).sp ++
        (commonFuncName p.2 ++ "(" ++ inner ++ ")")] ++
      ((get_outcallvars f (get_common f p.1 p.2).outtypes
          (get_common f p.1 p.2).c).2.2).map
        (fun x => (get_common f p.1 p.2).sp ++ x) :=
  ⟨_, rfl⟩

theorem genC_body_eq (f : FusedRec) (p : Nat × Sig) :
    ∃ inner, genC_body f p =
      (get_common f p.1 p.2).lines ++
      [(get_common f p.1 p.2).sp ++
        (f.outvars.headD "" ++ "[0] = " ++ inner)] ++
      ((get_outcallvars f (get_common f p.1 p.2).outtypes
          (get_common f p.1 p.2).c).2.2).map
        (fun x => (get_common f p.1 p.2).sp ++ x) :=
  ⟨_, rfl⟩

theorem lines_ne_else {f : FusedRec} {n : Nat} {sig : Sig} {s : String}
    (h : s ∈ (get_common f n sig).lines) : s ≠ "    else:" := by
  rcases get_common_lines f n sig with hL | ⟨r, hL | hL⟩
  · rw [hL] at h; cases h
  · rw [hL, List.mem_singleton] at h
    subst h
    rw [← String.append_assoc]
    exact prefix_ne (by decide)
  · rw [hL, List.mem_singleton] at h
    subst h
    rw [← String.append_assoc]
    exact prefix_ne (by decide)

theorem cast_line_ne_else {sp x : String}
    (hsp : sp = "    " ∨ sp = "        ")
    (hx : ∃ v, (∃ m : Nat, v = "y" ++ toString m) ∧
      ∃ r, x = v ++ ("[0] = " ++ r)) :
    sp ++ x ≠ "    else:" := by
  obtain ⟨v, ⟨m, hv⟩, r, hr⟩ := hx
  subst hv
  rw [hr]
  rw [String.append_assoc ("y" : String) (toString m) ("[0] = " ++ r)]
  rw [← String.append_assoc]
  rcases hsp with h | h <;> rw [h]
  · exact prefix_ne (by decide)
  · exact prefix_ne (by decide)

theorem callA_ne_else {sp call : String}
    (hsp : sp = "    " ∨ sp = "        ") :
    sp ++ "return " ++ call ≠ "    else:" := by
  rcases hsp with h | h <;> rw [h]
  · exact prefix_ne (by decide)
  · exact prefix_ne (by decide)

theorem callB_ne_else {sp fn inner : String}
    (hsp : sp = "    " ∨ sp = "        ")
    (hfn : (∃ r, fn = "_func_" ++ r) ∨ (∃ r, fn = "(<" ++ r)) :
    sp ++ (fn ++ "(" ++ inner ++ ")") ≠ "    else:" := by
  rcases hfn with ⟨r, hr⟩ | ⟨r, hr⟩ <;> subst hr <;>
    rcases hsp with h | h <;> rw [h] <;>
    · simp only [String.append_assoc]
      rw [← String.append_assoc]
      exact prefix_ne (by decide)

theorem callC_ne_else {sp v0 inner : String}
    (hsp : sp = "    " ∨ sp = "        ")
    (hv : v0 = "" ∨ v0 = "y" ++ toString 0) :
    sp ++ (v0 ++ "[0] = " ++ inner) ≠ "    else:" := by
  rcases hv with h | h <;> subst h <;> rcases hsp with h | h <;> rw [h] <;>
    · rw [← String.append_assoc]
      exact prefix_ne (by decide)

theorem genA_body_ne_else (f : FusedRec) (p : Nat × Sig) :
    ∀ s ∈ genA_body f p, s ≠ "    else:" := by
  intro s hs
  obtain ⟨call, hb⟩ := genA_body_eq f p
  rw [hb] at hs
  rcases List.mem_append.mp hs with h | h
  · exact lines_ne_else h
  · rw [List.mem_singleton] at h
    subst h
    exact callA_ne_else (get_common_sp f p.1 p.2)

theorem genB_body_ne_else (name : String) (sigs : List Sig) (p : Nat × Sig) :
    ∀ s ∈ genB_body (mkFusedFunc name sigs) p, s ≠ "    else:" := by
  intro s hs
  obtain ⟨inner, hb⟩ := genB_body_eq (mkFusedFunc name sigs) p
  rw [hb] at hs
  rcases List.mem_append.mp hs with h | h
  · rcases List.mem_append.mp h with h1 | h1
    · exact lines_ne_else h1
    · rw [List.mem_singleton] at h1
      subst h1
      exact callB_ne_else (get_common_sp _ p.1 p.2) (commonFuncName_shape p.2)
  · obtain ⟨x, hx, hxe⟩ := List.mem_map.mp h
    subst hxe
    obtain ⟨v, hv, r, hr⟩ := get_outcallvars_casts _ _ _ x hx
    exact cast_line_ne_else (get_common_sp _ p.1 p.2)
      ⟨v, mkFusedFunc_outvars_mem hv, r, hr⟩

theorem genC_body_ne_else (name : String) (sigs : List Sig) (p : Nat × Sig) :
    ∀ s ∈ genC_body (mkFusedFunc name sigs) p, s ≠ "    else:" := by
  intro s hs
  obtain ⟨inner, hb⟩ := genC_body_eq (mkFusedFunc name sigs) p
  rw [hb] at hs
  rcases List.mem_append.mp hs with h | h
  · rcases List.mem_append.mp h with h1 | h1
    · exact lines_ne_else h1
    · rw [List.mem_singleton] at h1
      subst h1
      exact callC_ne_else (get_common_sp _ p.1 p.2)
        (mkFusedFunc_outvars_headD name sigs)
  · obtain ⟨x, hx, hxe⟩ := List.mem_map.mp h
    subst hxe
    obtain ⟨v, hv, r, hr⟩ := get_outcallvars_casts _ _ _ x hx
    exact cast_line_ne_else (get_common_sp _ p.1 p.2)
      ⟨v, mkFusedFunc_outvars_mem hv, r, hr⟩

theorem else_not_branchesA (name : String) (sigs : List Sig) :
    "    else:" ∉ (genA_branches (mkFusedFunc name sigs)).2 := by
  intro h
  rw [genA_bodies_eq] at h
  obtain ⟨l2, hl2, hmem⟩ := List.mem_flatten.mp h
  obtain ⟨p, -, hpe⟩ := List.mem_map.mp hl2
  rw [← hpe] at hmem
  exact genA_body_ne_else _ p _ hmem rfl

theorem else_not_branchesB (name : String) (sigs : List Sig) :
    "    else:" ∉ (genB_branches (mkFusedFunc name sigs)).2.1 := by
  intro h
  rw [genB_bodies_eq] at h
  obtain ⟨l2, hl2, hmem⟩ := List.mem_flatten.mp h
  obtain ⟨p, -, hpe⟩ := List.mem_map.mp hl2
  rw [← hpe] at hmem
  exact genB_body_ne_else name sigs p _ hmem rfl

theorem else_not_branchesC (name : String) (sigs : List Sig) :
    "    else:" ∉ (genC_branches (mkFusedFunc name sigs)).2.1 := by
  intro h
  rw [genC_bodies_eq] at h
  obtain ⟨l2, hl2, hmem⟩ := List.mem_flatten.mp h
  obtain ⟨p, -, hpe⟩ := List.mem_map.mp hl2
  rw [← hpe] at hmem
  exact genC_body_ne_else name sigs p _ hmem rfl

theorem decB_shape (f : FusedRec) :
    (∃ r, decB f = "cpdef " ++ r) ∨ (∃ r, decB f = "cdef void " ++ r) := by
  simp only [decB]
  split
  · left
    simp only [String.append_assoc]
    exact ⟨_, rfl⟩
  · right
    simp only [String.append_assoc]
    exact ⟨_, rfl⟩

theorem else_not_tmp_decs (l : List String) : "    else:" ∉ get_tmp_decs l := by
  intro h
  obtain ⟨t, -, ht⟩ := List.mem_map.mp h
  exact prefix_ne (by decide) ht

theorem else_not_headA (f : FusedRec) : "    else:" ∉ headA f := by
  intro h
  rcases List.mem_cons.mp h with h1 | h1
  · refine absurd h1.symm ?_
    simp only [decA, String.append_assoc]
    exact prefix_ne (by decide)
  · have h2 := List.mem_singleton.mp h1
    refine absurd h2.symm ?_
    simp only [String.append_assoc]
    exact prefix_ne (by decide)

theorem else_not_headB (f : FusedRec) : "    else:" ∉ headB f := by
  intro h
  rcases List.mem_append.mp h with h1 | h1
  · rcases List.mem_append.mp h1 with h2 | h2
    · rcases List.mem_cons.mp h2 with h3 | h3
      · rcases decB_shape f with ⟨r, hr⟩ | ⟨r, hr⟩ <;>
          rw [hr] at h3 <;>
          · refine absurd h3.symm ?_
            rw [String.append_assoc]
            exact prefix_ne (by decide)
      · have h4 := List.mem_singleton.mp h3
        refine absurd h4.symm ?_
        simp only [String.append_assoc]
        exact prefix_ne (by decide)
    · by_cases hc : (f.outvars.length == 1) = true
      · rw [if_pos hc] at h2
        have h3 := List.mem_singleton.mp h2
        refine absurd h3.symm ?_
        simp only [String.append_assoc]
        exact prefix_ne (by decide)
      · rw [if_neg hc] at h2
        cases h2
  · exact else_not_tmp_decs _ h1

theorem else_not_headC (f : FusedRec) : "    else:" ∉ headC f := by
  intro h
  rcases List.mem_append.mp h with h1 | h1
  · rcases List.mem_cons.mp h1 with h2 | h2
    · refine absurd h2.symm ?_
      simp only [decC, String.append_assoc]
      exact prefix_ne (by decide)
    · have h3 := List.mem_singleton.mp h2
      refine absurd h3.symm ?_
      simp only [String.append_assoc]
      exact prefix_ne (by decide)
  · exact else_not_tmp_decs _ h1

theorem else_not_tailB (f : FusedRec) : "    else:" ∉ tailB f := by
  intro h
  unfold tailB at h
  split at h
  · have h1 := List.mem_singleton.mp h
    exact prefix_ne (by decide) h1.symm
  · cases h

theorem foldl_append_flatten {α β : Type} (g : α → List β) :
    ∀ (l : List α) (acc : List β),
      l.foldl (fun acc p => acc ++ g p) acc = acc ++ (l.map g).flatten := by
  intro l
  induction l with
  | nil => intro acc; simp
  | cons x xs ih =>
    intro acc
    simp only [List.foldl_cons, List.map_cons, List.flatten_cons]
    rw [ih]
    simp [List.append_assoc]

theorem nanDecs_lines_ext :
    ∀ (l : List (String × ((String × List Char) × List Char)))
      (acc : List (String × List Char) × List String × List String),
      ∃ ext, (l.foldl nanDecsStep acc).2.1 = acc.2.1 ++ ext ∧
        ∀ s ∈ ext, ∃ p ∈ l, p.2.2.length = 1 ∧
          s = "        " ++ p.1 ++ "[0] = " ++ NAN_VALUE (p.2.2.headD ' ') := by
  intro l
  induction l with
  | nil => intro acc; exact ⟨[], by simp, by simp⟩
  | cons x xs ih =>
    intro acc
    simp only [List.foldl_cons]
    by_cases h1 : (x.2.2.length == 1) = true
    · have hstep : nanDecsStep acc x =
          (acc.1, acc.2.1 ++
            ["        " ++ x.1 ++ "[0] = " ++ NAN_VALUE (x.2.2.headD ' ')],
           acc.2.2) := by
        unfold nanDecsStep; rw [if_pos h1]
      rw [hstep]
      obtain ⟨ext, hext, hsh⟩ := ih _
      refine ⟨["        " ++ x.1 ++ "[0] = " ++ NAN_VALUE (x.2.2.headD ' ')] ++
        ext, ?_, ?_⟩
      · rw [hext]
        simp [List.append_assoc]
      · intro s hs
        rcases List.mem_append.mp hs with h | h
        · rw [List.mem_singleton] at h
          exact ⟨x, List.mem_cons_self _ _, by simpa using h1, h⟩
        · obtain ⟨p, hp, hrest⟩ := hsh s h
          exact ⟨p, List.mem_cons_of_mem _ hp, hrest⟩
    · by_cases h2 : (acc.2.2.contains x.2.1.1) = true
      · have hstep : nanDecsStep acc x = acc := by
          unfold nanDecsStep; rw [if_neg h1, if_pos h2]
        rw [hstep]
        obtain ⟨ext, hext, hsh⟩ := ih acc
        refine ⟨ext, hext, ?_⟩
        intro s hs
        obtain ⟨p, hp, hrest⟩ := hsh s hs
        exact ⟨p, List.mem_cons_of_mem _ hp, hrest⟩
      · have hstep : nanDecsStep acc x =
            (acc.1 ++ [x.2.1], acc.2.1, acc.2.2 ++ [x.2.1.1]) := by
          unfold nanDecsStep; rw [if_neg h1, if_neg h2]
        rw [hstep]
        obtain ⟨ext, hext, hsh⟩ := ih _
        refine ⟨ext, hext, ?_⟩
        intro s hs
        obtain ⟨p, hp, hrest⟩ := hsh s hs
        exact ⟨p, List.mem_cons_of_mem _ hp, hrest⟩

theorem nanDecs_types_mem :
    ∀ (l : List (String × ((String × List Char) × List Char)))
      (acc : List (String × List Char) × List String × List String),
      ∀ ft ∈ (l.foldl nanDecsStep acc).1,
        ft ∈ acc.1 ∨ ∃ p ∈ l, ft = p.2.1 ∧ (p.2.2.length == 1) = false := by
  intro l
  induction l with
  | nil => intro acc ft h; exact Or.inl h
  | cons x xs ih =>
    intro acc ft h
    simp only [List.foldl_cons] at h
    by_cases h1 : (x.2.2.length == 1) = true
    · have hstep : nanDecsStep acc x =
          (acc.1, acc.2.1 ++
            ["        " ++ x.1 ++ "[0] = " ++ NAN_VALUE (x.2.2.headD ' ')],
           acc.2.2) := by
        unfold nanDecsStep; rw [if_pos h1]
      rw [hstep] at h
      rcases ih _ ft h with h2 | ⟨p, hp, he⟩
      · exact Or.inl h2
      · exact Or.inr ⟨p, List.mem_cons_of_mem _ hp, he⟩
    · by_cases h2 : (acc.2.2.contains x.2.1.1) = true
      · have hstep : nanDecsStep acc x = acc := by
          unfold nanDecsStep; rw [if_neg h1, if_pos h2]
        rw [hstep] at h
        rcases ih _ ft h with h3 | ⟨p, hp, he⟩
        · exact Or.inl h3
        · exact Or.inr ⟨p, List.mem_cons_of_mem _ hp, he⟩
      · have hstep : nanDecsStep acc x =
            (acc.1 ++ [x.2.1], acc.2.1, acc.2.2 ++ [x.2.1.1]) := by
          unfold nanDecsStep; rw [if_neg h1, if_neg h2]
        rw [hstep] at h
        rcases ih _ ft h with h3 | ⟨p, hp, he⟩
        · rcases List.mem_append.mp h3 with h4 | h4
          · exact Or.inl h4
          · exact Or.inr ⟨x, List.mem_cons_self _ _,
              List.mem_singleton.mp h4, by simpa using h1⟩
        · exact Or.inr ⟨p, List.mem_cons_of_mem _ hp, he⟩

theorem mkFusedFunc_outtypes_map (name : String) (sigs : List Sig) :
    (mkFusedFunc name sigs).outtypes =
      (mkFusedFunc name sigs).outcodes.map (fun code =>
        ((if code.length == 1 then CY_TYPES (code.headD ' ')
          else (generate_fused_type code).1), code)) := by
  rw [mkFusedFunc_outtypes, fused_get_types_fst, mkFusedFunc_outcodes]

theorem mkFusedFunc_zip_spec (name : String) (sigs : List Sig) :
    ∀ p ∈ (mkFusedFunc name sigs).outvars.zip
        ((mkFusedFunc name sigs).outtypes.zip (mkFusedFunc name sigs).outcodes),
      p.1 ∈ (mkFusedFunc name sigs).outvars ∧
      p.2.1 ∈ (mkFusedFunc name sigs).outtypes ∧
      p.2.1.2 = p.2.2 ∧ p.2.2 ∈ (mkFusedFunc name sigs).outcodes := by
  intro p hp
  have h1 := (List.of_mem_zip hp).1
  have h2 := (List.of_mem_zip hp).2
  rw [mkFusedFunc_outtypes_map, zip_map_self] at h2
  obtain ⟨c, hc, hce⟩ := List.mem_map.mp h2
  refine ⟨h1, ?_, ?_, ?_⟩
  · rw [mkFusedFunc_outtypes_map, ← hce]
    exact List.mem_map.mpr ⟨c, hc, rfl⟩
  · rw [← hce]
  · rw [← hce]
    exact hc

theorem cond_fallback_line (f : FusedRec) (t0 : String × List Char)
    (ts : List (String × List Char)) (c0 : Char) (cs0 : List Char)
    (adverb : String) (hlen : (t0.2.length == 1) = false)
    (hadv : adverb = "if" ∨ adverb = "elif" ∨ adverb = "else") :
    fallbackLine f
      ("        " ++ (get_conditional (t0 :: ts) (c0 :: cs0) adverb).getD "") := by
  obtain ⟨cv, hcv⟩ := get_conditional_isSome t0 ts c0 cs0 adverb hlen
  rw [hcv]
  simp only [Option.getD_some]
  rcases get_conditional_shape hcv with ⟨hne, r, hr⟩ | ⟨-, hr⟩
  · subst hr
    rcases hadv with h | h | h <;> subst h
    · exact Or.inl ⟨r ++ ":", by
        rw [String.append_assoc, show ("if" : String) ++ " " = "if " from rfl]⟩
    · exact Or.inr (Or.inl ⟨r ++ ":", by
        rw [String.append_assoc, show ("elif" : String) ++ " " = "elif " from rfl]⟩)
    · exact absurd hne (by decide)
  · subst hr
    exact Or.inr (Or.inr (Or.inl rfl))

theorem map_snd_getD (L : List (String × List Char)) (n : Nat)
    (h : n < L.length) :
    (L.map (fun ft => ft.2)).getD n [] = (L.getD n ("", [])).2 := by
  rw [List.getD_eq_getElem _ _ (by simpa using h), List.getD_eq_getElem _ _ h,
    List.getElem_map]

theorem get_nan_decs_shape (name : String) (sigs : List Sig) :
    ∃ tail', get_nan_decs (mkFusedFunc name sigs) = "    else:" :: tail' ∧
      ∀ s ∈ tail', fallbackLine (mkFusedFunc name sigs) s := by
  obtain ⟨ext, hext, hsh⟩ := nanDecs_lines_ext
    ((mkFusedFunc name sigs).outvars.zip
      ((mkFusedFunc name sigs).outtypes.zip (mkFusedFunc name sigs).outcodes))
    ([], ["    else:"], [])
  have hextline : ∀ s ∈ ext, fallbackLine (mkFusedFunc name sigs) s := by
    intro s hs
    obtain ⟨p, hp, hlen, hse⟩ := hsh s hs
    obtain ⟨hv, -, -, hcode⟩ := mkFusedFunc_zip_spec name sigs p hp
    obtain ⟨c, hc⟩ := List.length_eq_one.mp hlen
    refine Or.inr (Or.inr (Or.inr (Or.inl
      ⟨p.1, c, p.2.2, hv, hcode, ?_, Or.inl ?_⟩)))
    · rw [hc]
      exact List.mem_singleton.mpr rfl
    · rw [hse, hc]
      rfl
  simp only [get_nan_decs]
  rw [hext]
  by_cases hemp : (List.foldl nanDecsStep ([], ["    else:"], [])
      ((mkFusedFunc name sigs).outvars.zip
        ((mkFusedFunc name sigs).outtypes.zip
          (mkFusedFunc name sigs).outcodes))).1.isEmpty = true
  · rw [if_pos hemp]
    exact ⟨ext, rfl, hextline⟩
  · rw [if_neg hemp]
    refine ⟨_, rfl, ?_⟩
    intro s hs
    rcases List.mem_append.mp hs with h | h
    · exact hextline s h
    · obtain ⟨l2, hl2, hmem⟩ := List.mem_flatten.mp h
      obtain ⟨q, hq, hqe⟩ := List.mem_map.mp hl2
      rw [← hqe] at hmem
      have hq2 := (mem_enum_spec hq).2
      rcases hfold : (List.foldl nanDecsStep ([], ["    else:"], [])
          ((mkFusedFunc name sigs).outvars.zip
            ((mkFusedFunc name sigs).outtypes.zip
              (mkFusedFunc name sigs).outcodes))).1 with _ | ⟨t0, ts⟩
      · rw [hfold] at hemp
        exact absurd rfl hemp
      · rw [hfold] at hq2 hmem
        have ht0 : t0 ∈ (List.foldl nanDecsStep ([], ["    else:"], [])
            ((mkFusedFunc name sigs).outvars.zip
              ((mkFusedFunc name sigs).outtypes.zip
                (mkFusedFunc name sigs).outcodes))).1 := by
          rw [hfold]
          exact List.mem_cons_self _ _
        rcases nanDecs_types_mem _ _ t0 ht0 with h0 | ⟨p0, hp0, he0, hlen0⟩
        · cases h0
        · have halign := mkFusedFunc_zip_spec name sigs p0 hp0
          have hlent0 : (t0.2.length == 1) = false := by
            rw [he0, halign.2.2.1]
            exact hlen0
          have hqlen : q.2.length = ts.length + 1 := by
            have hq3 := listProduct_length hq2
            simpa using hq3
          rcases hq2c : q.2 with _ | ⟨c0, cs0⟩
          · rw [hq2c] at hqlen
            simp at hqlen
          · rw [hq2c] at hq2 hmem
            rcases List.mem_cons.mp hmem with hhead | htail
            · subst hhead
              exact cond_fallback_line _ t0 ts c0 cs0 _ hlent0 (by
                split
                · exact Or.inl rfl
                · split
                  · exact Or.inr (Or.inr rfl)
                  · exact Or.inr (Or.inl rfl))
            · obtain ⟨d, hd, hde⟩ := List.mem_map.mp htail
              rw [foldl_append_flatten] at hd
              simp only [List.nil_append] at hd
              obtain ⟨l3, hl3, hdm⟩ := List.mem_flatten.mp hd
              obtain ⟨p, hp, hpe⟩ := List.mem_map.mp hl3
              rw [← hpe] at hdm
              obtain ⟨r, hr, hre⟩ := List.mem_filterMap.mp hdm
              split at hre
              · have hd2 := Option.some.inj hre
                have hplt : p.1 < (t0 :: ts).length := by
                  have := (mem_enum_spec hp).1
                  simpa using this
                have hcin := listProduct_getD ' ' hq2 p.1 (by simpa using hplt)
                rw [map_snd_getD _ _ hplt] at hcin
                have hMmem : (t0 :: ts).getD p.1 ("", []) ∈ (t0 :: ts) := by
                  rw [List.getD_eq_getElem _ _ hplt]
                  exact List.getElem_mem hplt
                rw [← hfold] at hMmem
                rcases nanDecs_types_mem _ _ _ hMmem with h0 | ⟨pM, hpM, heM, -⟩
                · cases h0
                · have halignM := mkFusedFunc_zip_spec name sigs pM hpM
                  rw [hfold] at heM
                  subst hde
                  rw [← hd2]
                  refine Or.inr (Or.inr (Or.inr (Or.inl
                    ⟨r.2, (c0 :: cs0).getD p.1 ' ',
                     ((t0 :: ts).getD p.1 ("", [])).2, ?_, ?_, ?_, Or.inr rfl⟩)))
                  · exact (mem_enum_spec hr).2
                  · rw [heM, halignM.2.2.1]
                    exact halignM.2.2.2
                  · exact hcin
              · cases hre

theorem genA_fallback_shape (name : String) (sigs : List Sig)
    (hne : (mkFusedFunc name sigs).outcodes ≠ []) :
    ∃ tail', genA_fallback (mkFusedFunc name sigs) = "    else:" :: tail' ∧
      ∀ s ∈ tail', fallbackLine (mkFusedFunc name sigs) s := by
  rcases hoc : (mkFusedFunc name sigs).outcodes with _ | ⟨c0col, rest⟩
  · exact absurd hoc hne
  · have hT : (mkFusedFunc name sigs).outtypes.getD 0 ("", []) =
        ((if c0col.length == 1 then CY_TYPES (c0col.headD ' ')
          else (generate_fused_type c0col).1), c0col) := by
      rw [mkFusedFunc_outtypes_map, hoc]
      rfl
    have hTcons : (mkFusedFunc name sigs).outtypes =
        ((if c0col.length == 1 then CY_TYPES (c0col.headD ' ')
          else (generate_fused_type c0col).1), c0col) ::
        rest.map (fun code =>
          ((if code.length == 1 then CY_TYPES (code.headD ' ')
            else (generate_fused_type code).1), code)) := by
      rw [mkFusedFunc_outtypes_map, hoc]
      rfl
    simp only [genA_fallback]
    rw [hT]
    dsimp only
    refine ⟨_, rfl, ?_⟩
    intro s hs
    by_cases h1 : (c0col.length == 1) = true
    · rw [if_pos h1] at hs
      rw [List.mem_singleton] at hs
      subst hs
      obtain ⟨c, hc⟩ := List.length_eq_one.mp (by simpa using h1)
      refine Or.inr (Or.inr (Or.inr (Or.inr ⟨c, c0col, ?_, ?_, Or.inl ?_⟩)))
      · rw [hoc]
        exact List.mem_cons_self _ _
      · rw [hc]
        exact List.mem_singleton.mpr rfl
      · rw [hc]
        rfl
    · rw [if_neg h1] at hs
      obtain ⟨l2, hl2, hmem⟩ := List.mem_flatten.mp hs
      obtain ⟨q, hq, hqe⟩ := List.mem_map.mp hl2
      rw [← hqe] at hmem
      rcases List.mem_cons.mp hmem with hhead | htail
      · subst hhead
        rw [hTcons]
        exact cond_fallback_line _ _ _ q.2 [] _ (by simpa using h1) (by
          split
          · exact Or.inl rfl
          · split
            · exact Or.inr (Or.inr rfl)
            · exact Or.inr (Or.inl rfl))
      · rw [List.mem_singleton] at htail
        subst htail
        refine Or.inr (Or.inr (Or.inr (Or.inr ⟨q.2, c0col, ?_, ?_, Or.inr rfl⟩)))
        · rw [hoc]
          exact List.mem_cons_self _ _
        · exact (mem_enum_spec hq).2

theorem specsA_length (f : FusedRec) :
    (genA_branches f).1.length = f.signatures.length := by
  rw [genA_specs_eq, List.length_map, enum_length_eq]

theorem specsB_length (f : FusedRec) :
    (genB_branches f).1.length = f.signatures.length := by
  rw [genB_specs_eq, List.length_map, enum_length_eq]

theorem specsC_length (f : FusedRec) :
    (genC_branches f).1.length = f.signatures.length := by
  rw [genC_specs_eq, List.length_map, enum_length_eq]

theorem getD_mem_lt {α : Type} (l : List α) (n : Nat) (h : n < l.length)
    (d : α) : l.getD n d ∈ l := by
  rw [List.getD_eq_getElem _ _ h]
  exact List.getElem_mem h

theorem getD_map_lt {α β : Type} (l : List α) (g : α → β) (j : Nat)
    (h : j < l.length) (d : β) (d2 : α) :
    (l.map g).getD j d = g (l.getD j d2) := by
  have hm : j < (l.map g).length := by
    rw [List.length_map]
    exact h
  rw [List.getD_eq_getElem _ _ hm, List.getElem_map,
    List.getD_eq_getElem _ _ h]

theorem getD_zip_lt {α β : Type} (l1 : List α) (l2 : List β) (j : Nat)
    (h1 : j < l1.length) (h2 : j < l2.length) (d1 : α) (d2 : β) :
    (l1.zip l2).getD j (d1, d2) = (l1.getD j d1, l2.getD j d2) := by
  have hz : j < (l1.zip l2).length := by
    rw [List.length_zip]
    exact Nat.lt_min.mpr ⟨h1, h2⟩
  rw [List.getD_eq_getElem _ _ hz, List.getD_eq_getElem _ _ h1,
    List.getD_eq_getElem _ _ h2, List.getElem_zip]

theorem getD_map_enum {α β : Type} (l : List α) (g : Nat × α → β) (i : Nat)
    (h : i < l.length) (d : β) (d2 : α) :
    (l.enum.map g).getD i d = g (i, l.getD i d2) := by
  have he : i < l.enum.length := by
    rw [enum_length_eq]
    exact h
  have hm : i < (l.enum.map g).length := by
    rw [List.length_map]
    exact he
  rw [List.getD_eq_getElem _ _ hm, List.getElem_map, List.getElem_enum,
    List.getD_eq_getElem _ _ h]

theorem enum_getD_mem {α : Type} (l : List α) (n : Nat) (h : n < l.length)
    (d : α) : (n, l.getD n d) ∈ l.enum := by
  rw [List.getD_eq_getElem _ _ h, List.mem_iff_getElem]
  have he : n < l.enum.length := by
    rw [enum_length_eq]
    exact h
  exact ⟨n, he, List.getElem_enum l n he⟩

theorem mkFusedFunc_len_vt (name : String) (sigs : List Sig) :
    (mkFusedFunc name sigs).outvars.length =
      (mkFusedFunc name sigs).outtypes.length := by
  rw [mkFusedFunc_outvars, List.length_map, List.length_range,
    mkFusedFunc_outtypes]

theorem mkFusedFunc_len_tv (name : String) (sigs : List Sig) :
    (mkFusedFunc name sigs).outtypes.length =
      (mkFusedFunc name sigs).outcodes.length := by
  rw [mkFusedFunc_outtypes_map, List.length_map]

theorem mkFusedFunc_outtypes_getD (name : String) (sigs : List Sig) (j : Nat)
    (hj : j < (mkFusedFunc name sigs).outcodes.length) :
    (mkFusedFunc name sigs).outtypes.getD j ("", []) =
      ((if ((mkFusedFunc name sigs).outcodes.getD j []).length == 1 then
          CY_TYPES (((mkFusedFunc name sigs).outcodes.getD j []).headD ' ')
        else (generate_fused_type
          ((mkFusedFunc name sigs).outcodes.getD j [])).1),
       (mkFusedFunc name sigs).outcodes.getD j []) := by
  rw [mkFusedFunc_outtypes_map, getD_map_lt _ _ j hj ("", []) []]

theorem generate_fused_type_name_inj {c1 c2 : List Char}
    (h : (generate_fused_type c1).1 = (generate_fused_type c2).1) :
    c1 = c2 := by
  have h2 : String.mk c1 ++ "_number_t" = String.mk c2 ++ "_number_t" := h
  have h3 := congrArg String.data h2
  have h4 : c1 ++ "_number_t".data = c2 ++ "_number_t".data := h3
  exact List.append_cancel_right h4


theorem nanDecs_types_grow :
    ∀ (l : List (String × ((String × List Char) × List Char)))
      (acc : List (String × List Char) × List String × List String),
      ∃ ext, (l.foldl nanDecsStep acc).1 = acc.1 ++ ext := by
  intro l
  induction l with
  | nil => intro acc; exact ⟨[], by simp⟩
  | cons x xs ih =>
    intro acc
    simp only [List.foldl_cons]
    by_cases h1 : (x.2.2.length == 1) = true
    · have hstep : nanDecsStep acc x =
          (acc.1, acc.2.1 ++
            ["        " ++ x.1 ++ "[0] = " ++ NAN_VALUE (x.2.2.headD ' ')],
           acc.2.2) := by
        unfold nanDecsStep; rw [if_pos h1]
      rw [hstep]
      exact ih _
    · by_cases h2 : (acc.2.2.contains x.2.1.1) = true
      · have hstep : nanDecsStep acc x = acc := by
          unfold nanDecsStep; rw [if_neg h1, if_pos h2]
        rw [hstep]
        exact ih acc
      · have hstep : nanDecsStep acc x =
            (acc.1 ++ [x.2.1], acc.2.1, acc.2.2 ++ [x.2.1.1]) := by
          unfold nanDecsStep; rw [if_neg h1, if_neg h2]
        rw [hstep]
        obtain ⟨ext, hext⟩ := ih (acc.1 ++ [x.2.1], acc.2.1, acc.2.2 ++ [x.2.1.1])
        refine ⟨[x.2.1] ++ ext, ?_⟩
        rw [hext]
        simp [List.append_assoc]

theorem nanDecs_lines_complete :
    ∀ (l : List (String × ((String × List Char) × List Char)))
      (acc : List (String × List Char) × List String × List String),
      ∀ p ∈ l, p.2.2.length = 1 →
        ("        " ++ p.1 ++ "[0] = " ++ NAN_VALUE (p.2.2.headD ' ')) ∈
          (l.foldl nanDecsStep acc).2.1 := by
  intro l
  induction l with
  | nil => intro acc p hp; cases hp
  | cons x xs ih =>
    intro acc p hp hlen
    simp only [List.foldl_cons]
    rcases List.mem_cons.mp hp with hpx | hpxs
    · subst hpx
      have hstep : nanDecsStep acc p =
          (acc.1, acc.2.1 ++
            ["        " ++ p.1 ++ "[0] = " ++ NAN_VALUE (p.2.2.headD ' ')],
           acc.2.2) := by
        unfold nanDecsStep
        rw [if_pos (by simp [hlen])]
      rw [hstep]
      obtain ⟨ext, hext, -⟩ := nanDecs_lines_ext xs _
      rw [hext]
      exact List.mem_append_left _ (List.mem_append_right _
        (List.mem_singleton.mpr rfl))
    · exact ih (nanDecsStep acc x) p hpxs hlen

theorem nanDecs_types_complete :
    ∀ (l : List (String × ((String × List Char) × List Char)))
      (acc : List (String × List Char) × List String × List String),
      (∀ nm ∈ acc.2.2, ∃ e ∈ acc.1, e.1 = nm) →
      ∀ p ∈ l, (p.2.2.length == 1) = false →
        ∃ e ∈ (l.foldl nanDecsStep acc).1, e.1 = p.2.1.1 := by
  intro l
  induction l with
  | nil => intro acc hinv p hp; cases hp
  | cons x xs ih =>
    intro acc hinv p hp hlen
    simp only [List.foldl_cons]
    rcases List.mem_cons.mp hp with hpx | hpxs
    · subst hpx
      by_cases hseen : (acc.2.2.contains p.2.1.1) = true
      · have hstep : nanDecsStep acc p = acc := by
          unfold nanDecsStep
          rw [if_neg (by simp [hlen]), if_pos hseen]
        rw [hstep]
        obtain ⟨e, he, hee⟩ := hinv _ (List.elem_iff.mp hseen)
        obtain ⟨ext, hext⟩ := nanDecs_types_grow xs acc
        refine ⟨e, ?_, hee⟩
        rw [hext]
        exact List.mem_append_left _ he
      · have hstep : nanDecsStep acc p =
            (acc.1 ++ [p.2.1], acc.2.1, acc.2.2 ++ [p.2.1.1]) := by
          unfold nanDecsStep
          rw [if_neg (by simp [hlen]), if_neg hseen]
        rw [hstep]
        obtain ⟨ext, hext⟩ := nanDecs_types_grow xs
          (acc.1 ++ [p.2.1], acc.2.1, acc.2.2 ++ [p.2.1.1])
        refine ⟨p.2.1, ?_, rfl⟩
        rw [hext]
        exact List.mem_append_left _
          (List.mem_append_right _ (List.mem_singleton.mpr rfl))
    · have hinv2 : ∀ nm ∈ (nanDecsStep acc x).2.2,
          ∃ e ∈ (nanDecsStep acc x).1, e.1 = nm := by
        intro nm hnm
        by_cases h1 : (x.2.2.length == 1) = true
        · have hstep : nanDecsStep acc x =
              (acc.1, acc.2.1 ++
                ["        " ++ x.1 ++ "[0] = " ++ NAN_VALUE (x.2.2.headD ' ')],
               acc.2.2) := by
            unfold nanDecsStep; rw [if_pos h1]
          rw [hstep] at hnm ⊢
          exact hinv nm hnm
        · by_cases h2 : (acc.2.2.contains x.2.1.1) = true
          · have hstep : nanDecsStep acc x = acc := by
              unfold nanDecsStep; rw [if_neg h1, if_pos h2]
            rw [hstep] at hnm ⊢
            exact hinv nm hnm
          · have hstep : nanDecsStep acc x =
                (acc.1 ++ [x.2.1], acc.2.1, acc.2.2 ++ [x.2.1.1]) := by
              unfold nanDecsStep; rw [if_neg h1, if_neg h2]
            rw [hstep] at hnm ⊢
            rcases List.mem_append.mp hnm with h3 | h3
            · obtain ⟨e, he, hee⟩ := hinv nm h3
              exact ⟨e, List.mem_append_left _ he, hee⟩
            · refine ⟨x.2.1, List.mem_append_right _
                (List.mem_singleton.mpr rfl), ?_⟩
              rw [List.mem_singleton.mp h3]
      exact ih (nanDecsStep acc x) hinv2 p hpxs hlen

theorem nanFused_spec {name : String} {sigs : List Sig}
    {e : String × List Char}
    (he : e ∈ nanFused (mkFusedFunc name sigs)) :
    (e.2.length == 1) = false ∧
    e.2 ∈ (mkFusedFunc name sigs).outcodes ∧
    e = ((if e.2.length == 1 then CY_TYPES (e.2.headD ' ')
          else (generate_fused_type e.2).1), e.2) := by
  have he2 : e ∈ (((mkFusedFunc name sigs).outvars.zip
      ((mkFusedFunc name sigs).outtypes.zip
        (mkFusedFunc name sigs).outcodes)).foldl nanDecsStep
      ([], ["    else:"], [])).1 := he
  rcases nanDecs_types_mem _ _ e he2 with h0 | ⟨p, hp, hee, hlen⟩
  · cases h0
  · have hz := mkFusedFunc_zip_spec name sigs p hp
    have h2 := hz.2.1
    rw [mkFusedFunc_outtypes_map] at h2
    obtain ⟨c, hc, hce⟩ := List.mem_map.mp h2
    subst hee
    refine ⟨?_, ?_, ?_⟩
    · rw [hz.2.2.1]
      exact hlen
    · rw [hz.2.2.1]
      exact hz.2.2.2
    · have hc2 : p.2.1 = ((if c.length == 1 then CY_TYPES (c.headD ' ')
          else (generate_fused_type c).1), c) := hce.symm
      rw [hc2]

theorem nanAxes_spec (name : String) (sigs : List Sig) :
    ∀ a ∈ nanAxes (mkFusedFunc name sigs),
      a.length ≠ 1 ∧ a ∈ (mkFusedFunc name sigs).outcodes := by
  intro a ha
  simp only [nanAxes] at ha
  obtain ⟨e, he, hea⟩ := List.mem_map.mp ha
  have hs := nanFused_spec he
  refine ⟨?_, ?_⟩
  · rw [← hea]
    exact beq_eq_false_iff_ne.mp hs.1
  · rw [← hea]
    exact hs.2.1

theorem nanFused_complete (name : String) (sigs : List Sig) (j : Nat)
    (hj : j < (mkFusedFunc name sigs).outvars.length)
    (hlen : (((mkFusedFunc name sigs).outcodes.getD j []).length == 1) = false) :
    ∃ n, n < (nanAxes (mkFusedFunc name sigs)).length ∧
      (nanAxes (mkFusedFunc name sigs)).getD n [] =
        (mkFusedFunc name sigs).outcodes.getD j [] ∧
      (nanFused (mkFusedFunc name sigs)).getD n ("", []) =
        (mkFusedFunc name sigs).outtypes.getD j ("", []) := by
  have hjt : j < (mkFusedFunc name sigs).outtypes.length := by
    rw [← mkFusedFunc_len_vt]
    exact hj
  have hjc : j < (mkFusedFunc name sigs).outcodes.length := by
    rw [← mkFusedFunc_len_tv]
    exact hjt
  have hzl : j < ((mkFusedFunc name sigs).outtypes.zip
      (mkFusedFunc name sigs).outcodes).length := by
    rw [List.length_zip]
    exact Nat.lt_min.mpr ⟨hjt, hjc⟩
  have hzl2 : j < ((mkFusedFunc name sigs).outvars.zip
      ((mkFusedFunc name sigs).outtypes.zip
        (mkFusedFunc name sigs).outcodes)).length := by
    rw [List.length_zip]
    exact Nat.lt_min.mpr ⟨hj, hzl⟩
  have hpj : ((mkFusedFunc name sigs).outvars.zip
      ((mkFusedFunc name sigs).outtypes.zip
        (mkFusedFunc name sigs).outcodes)).getD j ("", (("", []), [])) =
      ((mkFusedFunc name sigs).outvars.getD j "",
       ((mkFusedFunc name sigs).outtypes.getD j ("", []),
        (mkFusedFunc name sigs).outcodes.getD j [])) := by
    rw [getD_zip_lt _ _ j hj hzl, getD_zip_lt _ _ j hjt hjc]
  obtain ⟨e, he, hee⟩ := nanDecs_types_complete
    ((mkFusedFunc name sigs).outvars.zip
      ((mkFusedFunc name sigs).outtypes.zip
        (mkFusedFunc name sigs).outcodes))
    ([], ["    else:"], [])
    (fun nm hnm => absurd hnm (List.not_mem_nil _)) _
    (getD_mem_lt _ j hzl2 ("", (("", []), [])))
    (by rw [hpj]; exact hlen)
  rw [hpj] at hee
  have he2 : e ∈ nanFused (mkFusedFunc name sigs) := he
  have hspec := nanFused_spec he2
  have hTj := mkFusedFunc_outtypes_getD name sigs j hjc
  have hename : e.1 = (if e.2.length == 1 then CY_TYPES (e.2.headD ' ')
      else (generate_fused_type e.2).1) := congrArg Prod.fst hspec.2.2
  rw [if_neg (by simp [hspec.1])] at hename
  have hTname : ((mkFusedFunc name sigs).outtypes.getD j ("", [])).1 =
      (if ((mkFusedFunc name sigs).outcodes.getD j []).length == 1 then
        CY_TYPES (((mkFusedFunc name sigs).outcodes.getD j []).headD ' ')
      else (generate_fused_type
        ((mkFusedFunc name sigs).outcodes.getD j [])).1) :=
    congrArg Prod.fst hTj
  rw [if_neg (by rw [hlen]; decide)] at hTname
  have hecj : e.2 = (mkFusedFunc name sigs).outcodes.getD j [] := by
    apply generate_fused_type_name_inj
    rw [← hename, ← hTname]
    exact hee
  have heT : e = (mkFusedFunc name sigs).outtypes.getD j ("", []) := by
    rw [hTj, hspec.2.2, hecj]
  obtain ⟨n, hn, hne⟩ := List.mem_iff_getElem.mp he2
  refine ⟨n, ?_, ?_, ?_⟩
  · simp only [nanAxes, List.length_map]
    exact hn
  · simp only [nanAxes]
    rw [map_snd_getD _ _ hn, List.getD_eq_getElem _ _ hn, hne, hecj]
  · rw [List.getD_eq_getElem _ _ hn, hne, heT]

theorem genA_fallback_covers (f : FusedRec) :
    returnFallbackCovers ((f.outtypes.getD 0 ("", [])).2) (genA_fallback f) := by
  by_cases h1 : ((f.outtypes.getD 0 ("", [])).2.length == 1) = true
  · left
    have hlen1 : (f.outtypes.getD 0 ("", [])).2.length = 1 := by simpa using h1
    obtain ⟨c, hc⟩ := List.length_eq_one.mp hlen1
    refine ⟨hlen1, ?_⟩
    simp only [genA_fallback]
    rw [if_pos h1, hc]
    rfl
  · right
    have hA : genA_fallback f = "    else:" ::
        ((f.outtypes.getD 0 ("", [])).2.enum.map (fun q =>
          ["        " ++ (get_conditional f.outtypes [q.2]
              (if q.1 == 0 then "if"
               else if q.1 == (f.outtypes.getD 0 ("", [])).2.length - 1
                 then "else" else "elif")).getD "",
           "            " ++ ("return " ++ NAN_VALUE q.2)])).flatten := by
      simp only [genA_fallback]
      rw [if_neg h1]
    refine ⟨by simpa using h1, _, hA, ?_, ?_⟩
    · rw [List.length_map, enum_length_eq]
    · intro i hilt
      rw [getD_map_enum _ _ i hilt [] ' ']
      exact ⟨_, rfl⟩

theorem get_nan_decs_eq (f : FusedRec) :
    get_nan_decs f =
      if (nanFused f).isEmpty then nanLines f
      else
        nanLines f ++
          ((listProduct (nanAxes f)).enum.map (fun q =>
            ("        " ++ (get_conditional (nanFused f) q.2
                (if q.1 == 0 then "if"
                 else if q.1 ==
                     ((nanAxes f).map List.length).foldl (· * ·) 1 - 1
                   then "else"
                 else "elif")).getD "") ::
            List.map (fun d => "            " ++ d)
              ((nanFused f).enum.foldl
                (fun acc2 p => acc2 ++
                  f.outvars.enum.filterMap (fun r =>
                    if f.outtypes.getD r.1 ("", []) == p.2 then
                      some (r.2 ++ "[0] = " ++ NAN_VALUE (q.2.getD p.1 ' '))
                    else none))
                []))).flatten := rfl

theorem get_nan_decs_covers (name : String) (sigs : List Sig) :
    nanFallbackCovers (mkFusedFunc name sigs) (nanAxes (mkFusedFunc name sigs))
      (get_nan_decs (mkFusedFunc name sigs)) := by
  obtain ⟨ext, hext, -⟩ := nanDecs_lines_ext
    ((mkFusedFunc name sigs).outvars.zip
      ((mkFusedFunc name sigs).outtypes.zip (mkFusedFunc name sigs).outcodes))
    ([], ["    else:"], [])
  have hlines : nanLines (mkFusedFunc name sigs) = "    else:" :: ext := by
    simp only [nanLines]
    rw [hext]
    rfl
  have hstep1 : ∀ j, j < (mkFusedFunc name sigs).outvars.length →
      ((mkFusedFunc name sigs).outcodes.getD j []).length = 1 →
      ("        " ++ (mkFusedFunc name sigs).outvars.getD j "" ++ "[0] = " ++
        NAN_VALUE (((mkFusedFunc name sigs).outcodes.getD j []).headD ' '))
        ∈ ext := by
    intro j hj hlen1
    have hjt : j < (mkFusedFunc name sigs).outtypes.length := by
      rw [← mkFusedFunc_len_vt]
      exact hj
    have hjc : j < (mkFusedFunc name sigs).outcodes.length := by
      rw [← mkFusedFunc_len_tv]
      exact hjt
    have hzl : j < ((mkFusedFunc name sigs).outtypes.zip
        (mkFusedFunc name sigs).outcodes).length := by
      rw [List.length_zip]
      exact Nat.lt_min.mpr ⟨hjt, hjc⟩
    have hzl2 : j < ((mkFusedFunc name sigs).outvars.zip
        ((mkFusedFunc name sigs).outtypes.zip
          (mkFusedFunc name sigs).outcodes)).length := by
      rw [List.length_zip]
      exact Nat.lt_min.mpr ⟨hj, hzl⟩
    have hpj : ((mkFusedFunc name sigs).outvars.zip
        ((mkFusedFunc name sigs).outtypes.zip
          (mkFusedFunc name sigs).outcodes)).getD j ("", (("", []), [])) =
        ((mkFusedFunc name sigs).outvars.getD j "",
         ((mkFusedFunc name sigs).outtypes.getD j ("", []),
          (mkFusedFunc name sigs).outcodes.getD j [])) := by
      rw [getD_zip_lt _ _ j hj hzl, getD_zip_lt _ _ j hjt hjc]
    have hmem := nanDecs_lines_complete
      ((mkFusedFunc name sigs).outvars.zip
        ((mkFusedFunc name sigs).outtypes.zip
          (mkFusedFunc name sigs).outcodes))
      ([], ["    else:"], []) _
      (getD_mem_lt _ j hzl2 ("", (("", []), [])))
      (by rw [hpj]; exact hlen1)
    rw [hpj] at hmem
    rw [hext] at hmem
    rcases List.mem_append.mp hmem with hbad | hgood
    · exfalso
      have hbad2 := List.mem_singleton.mp hbad
      simp only [String.append_assoc] at hbad2
      exact prefix_ne (by decide) hbad2
    · exact hgood
  rw [get_nan_decs_eq]
  by_cases hemp : (nanFused (mkFusedFunc name sigs)).isEmpty = true
  · rw [if_pos hemp, hlines]
    have haxnil : nanAxes (mkFusedFunc name sigs) = [] := by
      simp only [nanAxes]
      rw [List.isEmpty_iff.mp hemp]
      rfl
    refine ⟨ext, [], by simp, hstep1, ?_, ?_, ?_⟩
    · intro j hj hne
      obtain ⟨n, hn, hax, -⟩ := nanFused_complete name sigs j hj
        (beq_eq_false_iff_ne.mpr hne)
      exact ⟨n, hn, hax⟩
    · intro hne
      exact absurd haxnil hne
    · intro i hi
      exact absurd hi (by simp)
  · rw [if_neg hemp, hlines]
    have hA : ("    else:" :: ext) ++
        ((listProduct (nanAxes (mkFusedFunc name sigs))).enum.map (fun q =>
          ("        " ++ (get_conditional (nanFused (mkFusedFunc name sigs)) q.2
              (if q.1 == 0 then "if"
               else if q.1 ==
                   ((nanAxes (mkFusedFunc name sigs)).map List.length).foldl
                     (· * ·) 1 - 1
                 then "else"
               else "elif")).getD "") ::
          List.map (fun d => "            " ++ d)
            ((nanFused (mkFusedFunc name sigs)).enum.foldl
              (fun acc2 p => acc2 ++
                (mkFusedFunc name sigs).outvars.enum.filterMap (fun r =>
                  if (mkFusedFunc name sigs).outtypes.getD r.1 ("", []) == p.2
                  then
                    some (r.2 ++ "[0] = " ++ NAN_VALUE (q.2.getD p.1 ' '))
                  else none))
              []))).flatten =
        "    else:" :: (ext ++
          ((listProduct (nanAxes (mkFusedFunc name sigs))).enum.map (fun q =>
            ("        " ++ (get_conditional (nanFused (mkFusedFunc name sigs))
                q.2
                (if q.1 == 0 then "if"
                 else if q.1 ==
                     ((nanAxes (mkFusedFunc name sigs)).map List.length).foldl
                       (· * ·) 1 - 1
                   then "else"
                 else "elif")).getD "") ::
            List.map (fun d => "            " ++ d)
              ((nanFused (mkFusedFunc name sigs)).enum.foldl
                (fun acc2 p => acc2 ++
                  (mkFusedFunc name sigs).outvars.enum.filterMap (fun r =>
                    if (mkFusedFunc name sigs).outtypes.getD r.1 ("", []) ==
                        p.2 then
                      some (r.2 ++ "[0] = " ++ NAN_VALUE (q.2.getD p.1 ' '))
                    else none))
                []))).flatten) :=
      List.cons_append _ _ _
    refine ⟨ext, _, hA, hstep1, ?_, ?_, ?_⟩
    · intro j hj hne
      obtain ⟨n, hn, hax, -⟩ := nanFused_complete name sigs j hj
        (beq_eq_false_iff_ne.mpr hne)
      exact ⟨n, hn, hax⟩
    · intro hne
      rw [List.length_map, enum_length_eq]
    · intro i hi
      rw [List.length_map, enum_length_eq] at hi
      rw [getD_map_enum _ _ i hi [] ([] : List Char)]
      refine ⟨_, _, rfl, ?_⟩
      intro j hj hne
      obtain ⟨n, hn, hax, hfus⟩ := nanFused_complete name sigs j hj
        (beq_eq_false_iff_ne.mpr hne)
      refine ⟨n, hn, hax, ?_⟩
      rw [foldl_append_flatten]
      simp only [List.nil_append]
      have hn2 : n < (nanFused (mkFusedFunc name sigs)).length := by
        simp only [nanAxes, List.length_map] at hn
        exact hn
      refine List.mem_flatten.mpr ⟨_, List.mem_map.mpr
        ⟨(n, (nanFused (mkFusedFunc name sigs)).getD n ("", [])),
         enum_getD_mem _ n hn2 _, rfl⟩, ?_⟩
      refine List.mem_filterMap.mpr
        ⟨(j, (mkFusedFunc name sigs).outvars.getD j ""),
         enum_getD_mem _ j hj _, ?_⟩
      dsimp only
      rw [hfus, if_pos (beq_self_eq_true _)]

set_option maxHeartbeats 1600000 in
/-- C7: for every group, the scalar dispatch function body decomposes as head
lines, the specialization branches, the sentinel fallback (present exactly
when the group has more than one specialization, i.e. more than one
signature), and the trailing return; the fallback opens with `else:`, every
line of it is a type conditional, a sentinel assignment to an output slot, or
a sentinel return, and it covers every output/return slot: on the return path
a one-code return axis gets its sentinel returned unconditionally and a fused
axis gets one conditional block per code, each returning that code's
sentinel; on the outargs paths every one-code output is assigned its code's
sentinel unconditionally and the conditional blocks, one per combination in
the Cartesian product of the fused output axes, assign every fused output the
sentinel of its own axis's code in that combination; no other part of the
function contains an `else:` line. -/
theorem fused_fallback_iff (name : String) (sigs : List Sig) (f : FusedRec)
    (hf : f = mkFusedFunc name sigs) (dec src : String)
    (specs ftypes : List String) (wrap : Option String)
    (hok : fusedGenerate f = .ok (dec, src, specs, ftypes, wrap)) :
    specs.length = sigs.length ∧
    ∃ head branches fb tail,
      ((head = headA f ∧ branches = (genA_branches f).2 ∧
          fb = genA_fallback f ∧ tail = []) ∨
       (head = headB f ∧ branches = (genB_branches f).2.1 ∧
          fb = get_nan_decs f ∧ tail = tailB f) ∨
       (head = headC f ∧ branches = (genC_branches f).2.1 ∧
          fb = get_nan_decs f ∧ tail = [])) ∧
      src = String.intercalate "\n"
        (head ++ branches ++ (if 1 < specs.length then fb else []) ++ tail) ∧
      "    else:" ∉ head ∧ "    else:" ∉ branches ∧ "    else:" ∉ tail ∧
      (1 < specs.length →
        fb.headD "" = "    else:" ∧ (∀ s ∈ fb.tail, fallbackLine f s) ∧
        ((fb = genA_fallback f ∧
            returnFallbackCovers ((f.outtypes.getD 0 ("", [])).2) fb) ∨
         (fb = get_nan_decs f ∧
            (∀ a ∈ nanAxes f, a.length ≠ 1 ∧ a ∈ f.outcodes) ∧
            nanFallbackCovers f (nanAxes f) fb))) := by
  subst hf
  cases sigs with
  | nil =>
    have hz : fusedGenerate (mkFusedFunc name []) = .error "Invalid signature" :=
      rfl
    rw [hz] at hok
    cases hok
  | cons s0 rest =>
    have hgen : fusedGenerate (mkFusedFunc name (s0 :: rest)) =
        (if s0.outarg.length = 0 ∧
            (if (stripStar s0.ret).isEmpty then ['v']
             else stripStar s0.ret) ≠ ['v'] then
          .ok ((generate_from_return_and_no_outargs
              (mkFusedFunc name (s0 :: rest))).1,
            (generate_from_return_and_no_outargs
              (mkFusedFunc name (s0 :: rest))).2.1,
            (generate_from_return_and_no_outargs
              (mkFusedFunc name (s0 :: rest))).2.2,
            (mkFusedFunc name (s0 :: rest)).fused_types,
            if 1 < (mkFusedFunc name (s0 :: rest)).outvars.length then
              some (get_python_wrap (mkFusedFunc name (s0 :: rest))) else none)
        else if 0 < s0.outarg.length ∧
            (if (stripStar s0.ret).isEmpty then ['v']
             else stripStar s0.ret) = ['v'] then
          .ok ((generate_from_outargs_and_no_return
              (mkFusedFunc name (s0 :: rest))).1,
            (generate_from_outargs_and_no_return
              (mkFusedFunc name (s0 :: rest))).2.1,
            (generate_from_outargs_and_no_return
              (mkFusedFunc name (s0 :: rest))).2.2,
            (mkFusedFunc name (s0 :: rest)).fused_types,
            if 1 < (mkFusedFunc name (s0 :: rest)).outvars.length then
              some (get_python_wrap (mkFusedFunc name (s0 :: rest))) else none)
        else if 0 < s0.outarg.length ∧
            (if (stripStar s0.ret).isEmpty then ['v']
             else stripStar s0.ret) ≠ ['v'] then
          .ok ((generate_from_outargs_and_return
              (mkFusedFunc name (s0 :: rest))).1,
            (generate_from_outargs_and_return
              (mkFusedFunc name (s0 :: rest))).2.1,
            (generate_from_outargs_and_return
              (mkFusedFunc name (s0 :: rest))).2.2,
            (mkFusedFunc name (s0 :: rest)).fused_types,
            if 1 < (mkFusedFunc name (s0 :: rest)).outvars.length then
              some (get_python_wrap (mkFusedFunc name (s0 :: rest))) else none)
        else .error "Invalid signature") := rfl
    rw [hgen] at hok
    by_cases hA : s0.outarg.length = 0 ∧
        (if (stripStar s0.ret).isEmpty then ['v']
         else stripStar s0.ret) ≠ ['v']
    · rw [if_pos hA] at hok
      have htup := Except.ok.inj hok
      have hsrc : (generate_from_return_and_no_outargs
          (mkFusedFunc name (s0 :: rest))).2.1 = src :=
        congrArg (fun t => t.2.1) htup
      have hspecs' : (genA_branches (mkFusedFunc name (s0 :: rest))).1 = specs :=
        congrArg (fun t => t.2.2.1) htup
      have hsrc' : src = String.intercalate "\n"
          (headA (mkFusedFunc name (s0 :: rest)) ++
           (if 1 < (genA_branches (mkFusedFunc name (s0 :: rest))).1.length then
             (genA_branches (mkFusedFunc name (s0 :: rest))).2 ++
               genA_fallback (mkFusedFunc name (s0 :: rest))
           else (genA_branches (mkFusedFunc name (s0 :: rest))).2)) := hsrc.symm
      have hretne : (stripStar s0.ret).isEmpty = false := by
        rcases hb : (stripStar s0.ret).isEmpty
        · rfl
        · exfalso
          apply hA.2
          rw [if_pos hb]
      have houtne : (mkFusedFunc name (s0 :: rest)).outcodes ≠ [] := by
        have hoeq : (mkFusedFunc name (s0 :: rest)).outcodes =
            (List.range (stripStar s0.ret ++ s0.outarg).length).map (fun n =>
              (unique (((s0 :: rest).map fun s =>
                (iter_variants s.inarg (stripStar s.ret ++ s.outarg)).headD
                  ([], [])).map fun x => x.2.getD n ' ')).mergeSort charLe) :=
          rfl
        have hsne : stripStar s0.ret ≠ [] := by
          intro h0
          rw [h0] at hretne
          exact absurd hretne (by decide)
        have hpos : 0 < (stripStar s0.ret ++ s0.outarg).length := by
          rw [List.length_append]
          have h3 := List.length_pos.mpr hsne
          omega
        intro hnil
        rw [hoeq] at hnil
        have hlen0 := congrArg List.length hnil
        rw [List.length_map, List.length_range] at hlen0
        simp only [List.length_nil] at hlen0
        omega
      rw [← hspecs']
      refine ⟨?_, headA (mkFusedFunc name (s0 :: rest)),
        (genA_branches (mkFusedFunc name (s0 :: rest))).2,
        genA_fallback (mkFusedFunc name (s0 :: rest)), [],
        Or.inl ⟨rfl, rfl, rfl, rfl⟩, ?_, else_not_headA _,
        else_not_branchesA name (s0 :: rest), List.not_mem_nil _, ?_⟩
      · exact specsA_length _
      · rw [hsrc']
        by_cases hlt : 1 < (genA_branches (mkFusedFunc name (s0 :: rest))).1.length
        · rw [if_pos hlt, if_pos hlt]
          simp [List.append_assoc]
        · rw [if_neg hlt, if_neg hlt]
          simp [List.append_assoc]
      · intro hlt
        obtain ⟨t2, ht2, hts⟩ := genA_fallback_shape name (s0 :: rest) houtne
        refine ⟨?_, ?_, Or.inl ⟨rfl, genA_fallback_covers _⟩⟩
        · rw [ht2]
          rfl
        · rw [ht2]
          exact hts
    · rw [if_neg hA] at hok
      by_cases hB : 0 < s0.outarg.length ∧
          (if (stripStar s0.ret).isEmpty then ['v']
           else stripStar s0.ret) = ['v']
      · rw [if_pos hB] at hok
        have htup := Except.ok.inj hok
        have hsrc : (generate_from_outargs_and_no_return
            (mkFusedFunc name (s0 :: rest))).2.1 = src :=
          congrArg (fun t => t.2.1) htup
        have hspecs' : (genB_branches (mkFusedFunc name (s0 :: rest))).1 =
            specs := congrArg (fun t => t.2.2.1) htup
        have hsrc' : src = String.intercalate "\n"
            (headB (mkFusedFunc name (s0 :: rest)) ++
             (if 1 < (genB_branches (mkFusedFunc name (s0 :: rest))).1.length then
               (genB_branches (mkFusedFunc name (s0 :: rest))).2.1 ++
                 get_nan_decs (mkFusedFunc name (s0 :: rest))
             else (genB_branches (mkFusedFunc name (s0 :: rest))).2.1) ++
             tailB (mkFusedFunc name (s0 :: rest))) := hsrc.symm
        rw [← hspecs']
        refine ⟨?_, headB (mkFusedFunc name (s0 :: rest)),
          (genB_branches (mkFusedFunc name (s0 :: rest))).2.1,
          get_nan_decs (mkFusedFunc name (s0 :: rest)),
          tailB (mkFusedFunc name (s0 :: rest)),
          Or.inr (Or.inl ⟨rfl, rfl, rfl, rfl⟩), ?_, else_not_headB _,
          else_not_branchesB name (s0 :: rest), else_not_tailB _, ?_⟩
        · exact specsB_length _
        · rw [hsrc']
          by_cases hlt :
              1 < (genB_branches (mkFusedFunc name (s0 :: rest))).1.length
          · rw [if_pos hlt, if_pos hlt]
            simp [List.append_assoc]
          · rw [if_neg hlt, if_neg hlt]
            simp [List.append_assoc]
        · intro hlt
          obtain ⟨t2, ht2, hts⟩ := get_nan_decs_shape name (s0 :: rest)
          refine ⟨?_, ?_, Or.inr ⟨rfl, nanAxes_spec name (s0 :: rest),
            get_nan_decs_covers name (s0 :: rest)⟩⟩
          · rw [ht2]
            rfl
          · rw [ht2]
            exact hts
      · rw [if_neg hB] at hok
        by_cases hC : 0 < s0.outarg.length ∧
            (if (stripStar s0.ret).isEmpty then ['v']
             else stripStar s0.ret) ≠ ['v']
        · rw [if_pos hC] at hok
          have htup := Except.ok.inj hok
          have hsrc : (generate_from_outargs_and_return
              (mkFusedFunc name (s0 :: rest))).2.1 = src :=
            congrArg (fun t => t.2.1) htup
          have hspecs' : (genC_branches (mkFusedFunc name (s0 :: rest))).1 =
              specs := congrArg (fun t => t.2.2.1) htup
          have hsrc' : src = String.intercalate "\n"
              (headC (mkFusedFunc name (s0 :: rest)) ++
               (if 1 < (genC_branches (mkFusedFunc name (s0 :: rest))).1.length then
                 (genC_branches (mkFusedFunc name (s0 :: rest))).2.1 ++
                   get_nan_decs (mkFusedFunc name (s0 :: rest))
               else (genC_branches (mkFusedFunc name (s0 :: rest))).2.1)) :=
            hsrc.symm
          rw [← hspecs']
          refine ⟨?_, headC (mkFusedFunc name (s0 :: rest)),
            (genC_branches (mkFusedFunc name (s0 :: rest))).2.1,
            get_nan_decs (mkFusedFunc name (s0 :: rest)), [],
            Or.inr (Or.inr ⟨rfl, rfl, rfl, rfl⟩), ?_, else_not_headC _,
            else_not_branchesC name (s0 :: rest), List.not_mem_nil _, ?_⟩
          · exact specsC_length _
          · rw [hsrc']
            by_cases hlt :
                1 < (genC_branches (mkFusedFunc name (s0 :: rest))).1.length
            · rw [if_pos hlt, if_pos hlt]
              simp [List.append_assoc]
            · rw [if_neg hlt, if_neg hlt]
              simp [List.append_assoc]
          · intro hlt
            obtain ⟨t2, ht2, hts⟩ := get_nan_decs_shape name (s0 :: rest)
            refine ⟨?_, ?_, Or.inr ⟨rfl, nanAxes_spec name (s0 :: rest),
              get_nan_decs_covers name (s0 :: rest)⟩⟩
            · rw [ht2]
              rfl
            · rw [ht2]
              exact hts
        · rw [if_neg hC] at hok
          cases hok

/-- Witness for C7: a two-kernel group on the return-value path; the emitted
dispatcher carries the trailing `else:` sentinel fallback. -/
theorem fused_fallback_iff_witness :
    fusedGenerate (mkFusedFunc "cosm1x"
      [⟨"cosm1", ['d'], [], ['d'], "cephes.pxd"⟩,
       ⟨"cosdg", ['d'], [], ['d'], "cephes.pxd"⟩]) =
      .ok ("cpdef double cosm1x(double x0) nogil",
        "cpdef double cosm1x(double x0) nogil:\n    \"\"\"See the documentation for scipy.special.cosm1x\"\"\"\n    return _func_cosm1(x0)\n    return _func_cosdg(x0)\n    else:\n        return NPY_NAN",
        ["d->d", "d->d"], [], none) ∧
    (["d->d", "d->d"] : List String).length =
      ([⟨"cosm1", ['d'], [], ['d'], "cephes.pxd"⟩,
        ⟨"cosdg", ['d'], [], ['d'], "cephes.pxd"⟩] : List Sig).length := by
  have hcol : (unique ['d', 'd']).mergeSort charLe = ['d'] := by
    rw [show unique ['d', 'd'] = ['d'] from rfl]
    exact List.mergeSort_singleton 'd'
  have h1 : fused_get_codes
      [⟨"cosm1", ['d'], [], ['d'], "cephes.pxd"⟩,
       ⟨"cosdg", ['d'], [], ['d'], "cephes.pxd"⟩] =
      ([(unique ['d', 'd']).mergeSort charLe],
       [(unique ['d', 'd']).mergeSort charLe]) := rfl
  have hcodes : fused_get_codes
      [⟨"cosm1", ['d'], [], ['d'], "cephes.pxd"⟩,
       ⟨"cosdg", ['d'], [], ['d'], "cephes.pxd"⟩] = ([['d']], [['d']]) := by
    rw [h1, hcol]
  have hf : mkFusedFunc "cosm1x"
      [⟨"cosm1", ['d'], [], ['d'], "cephes.pxd"⟩,
       ⟨"cosdg", ['d'], [], ['d'], "cephes.pxd"⟩] =
      ⟨"cosm1x",
       [⟨"cosm1", ['d'], [], ['d'], "cephes.pxd"⟩,
        ⟨"cosdg", ['d'], [], ['d'], "cephes.pxd"⟩],
       "See the documentation for scipy.special.cosm1x",
       [['d']], [['d']], [("double", ['d'])], [("double", ['d'])], [],
       ["x0"], ["y0"]⟩ := by
    unfold mkFusedFunc
    rw [hcodes]
    rfl
  have hok : fusedGenerate (mkFusedFunc "cosm1x"
      [⟨"cosm1", ['d'], [], ['d'], "cephes.pxd"⟩,
       ⟨"cosdg", ['d'], [], ['d'], "cephes.pxd"⟩]) =
      .ok ("cpdef double cosm1x(double x0) nogil",
        "cpdef double cosm1x(double x0) nogil:\n    \"\"\"See the documentation for scipy.special.cosm1x\"\"\"\n    return _func_cosm1(x0)\n    return _func_cosdg(x0)\n    else:\n        return NPY_NAN",
        ["d->d", "d->d"], [], none) := by
    rw [hf]
    rfl
  exact ⟨hok, (fused_fallback_iff "cosm1x" _ _ rfl _ _ _ _ _ hok).1⟩

end GenUfuncs
